import Mathlib

/-!
# my-websocket: connection lifecycle and cross-node routing

A shallow embedding of the Go sources `api/handler/ChatHome.go`,
`inits/inits.go` and `main.go`.  Go maps are association lists (the order of
the list is the order in which a `range` loop visits the entries, so a
statement over all lists covers every iteration order), the Redis store and
the broker are explicit state, and every observable action of the program is
recorded as an `Effect` in a trace.
-/

namespace MyWebsocket

/-! ## Go maps as association lists -/

/-- Go map lookup `v, ok := m[k]`. -/
def mapGet {κ ν : Type} [DecidableEq κ] (m : List (κ × ν)) (k : κ) : Option ν :=
  match m with
  | [] => none
  | (k', v) :: rest => if k' = k then some v else mapGet rest k

/-- Go map assignment `m[k] = v`: an existing entry is overwritten in place,
a new one is added. -/
def mapSet {κ ν : Type} [DecidableEq κ] (m : List (κ × ν)) (k : κ) (v : ν) : List (κ × ν) :=
  match m with
  | [] => [(k, v)]
  | (k', v') :: rest => if k' = k then (k, v) :: rest else (k', v') :: mapSet rest k v

/-- Go `delete(m, k)`. -/
def mapDelete {κ ν : Type} [DecidableEq κ] (m : List (κ × ν)) (k : κ) : List (κ × ν) :=
  m.filter (fun e => decide (e.1 ≠ k))

/-- The keys of a map, in iteration order. -/
def mapKeys {κ ν : Type} (m : List (κ × ν)) : List κ :=
  m.map Prod.fst

/-! ## The Redis store -/

/-- The part of the shared Redis store the program uses.  `LoginBucket` is the
list under the key "LoginBucket" (head of the Lean list = left end); Redis
deletes a list key when its last element is popped, so the key exists exactly
when the list is non-empty.  `Strings` holds the plain keys written by `SET`
(the presence records, decimal user ID to node mark), `Sets` the per-node
membership sets, `Nodes` the fields of the hash "Nodes". -/
structure Redis where
  LoginBucket : List Int
  Strings : List (String × String)
  Sets : List (String × List String)
  Nodes : List (String × String)
deriving DecidableEq, Repr

/-- Redis `EXISTS LoginBucket`: 1 when the key exists, 0 otherwise. -/
def Redis.ExistsLoginBucket (r : Redis) : Nat :=
  if r.LoginBucket = [] then 0 else 1

/-- Redis `LPUSH LoginBucket v`: insert at the left end. -/
def Redis.LPush (r : Redis) (v : Int) : Redis :=
  { r with LoginBucket := v :: r.LoginBucket }

/-- Redis `RPOP LoginBucket`: remove and return the right end, `none` (the
client's `redis.Nil` error) when the key does not exist. -/
def Redis.RPop (r : Redis) : Option (Int × Redis) :=
  match r.LoginBucket.getLast? with
  | none => none
  | some v => some (v, { r with LoginBucket := r.LoginBucket.dropLast })

/-- Go `fmt.Sprintf("%d", ID)`. -/
def Sprintf_d (ID : Int) : String :=
  toString ID

/-- Redis `GET key` on a plain key; `none` is the `redis.Nil` error. -/
def Redis.Get (r : Redis) (key : String) : Option String :=
  mapGet r.Strings key

/-- Redis `SET key value 0` (no expiry). -/
def Redis.Set (r : Redis) (key value : String) : Redis :=
  { r with Strings := mapSet r.Strings key value }

/-- Redis `DEL key`: the key space is shared, so the plain key and the set of
that name both go. -/
def Redis.Del (r : Redis) (key : String) : Redis :=
  { r with Strings := mapDelete r.Strings key, Sets := mapDelete r.Sets key }

/-- Redis `SADD key member`. -/
def Redis.SAdd (r : Redis) (key member : String) : Redis :=
  match mapGet r.Sets key with
  | none => { r with Sets := mapSet r.Sets key [member] }
  | some ms => if member ∈ ms then r else { r with Sets := mapSet r.Sets key (ms ++ [member]) }

/-- Redis `SREM key member`; a set that becomes empty is deleted. -/
def Redis.SRem (r : Redis) (key member : String) : Redis :=
  match mapGet r.Sets key with
  | none => r
  | some ms =>
    let ms' := ms.filter (fun m => decide (m ≠ member))
    if ms' = [] then { r with Sets := mapDelete r.Sets key }
    else { r with Sets := mapSet r.Sets key ms' }

/-- Redis `HGETALL Nodes`, as the Go map `.Val()` returns it. -/
def Redis.HGetAllNodes (r : Redis) : List (String × String) :=
  r.Nodes

/-- Redis `HSET Nodes field value`. -/
def Redis.HSetNodes (r : Redis) (field value : String) : Redis :=
  { r with Nodes := mapSet r.Nodes field value }

/-- Redis `HDEL Nodes field`. -/
def Redis.HDelNodes (r : Redis) (field : String) : Redis :=
  { r with Nodes := mapDelete r.Nodes field }

/-- The store before any node has started. -/
def Redis.empty : Redis :=
  { LoginBucket := [], Strings := [], Sets := [], Nodes := [] }

/-- `inits.RedisMakeBucket`: return when `EXISTS LoginBucket` is 1, otherwise
`LPUSH` the values 0..99 one after the other. -/
def RedisMakeBucket (r : Redis) : Redis :=
  if r.ExistsLoginBucket = 1 then r
  else (List.range 100).foldl (fun acc (i : Nat) => acc.LPush (Int.ofNat i)) r

/-! ## Wire types, handles and effects -/

/-- Byte payloads.  The Go conversions `[]byte(s)` and `string(b)` keep the
bytes, so one type serves for both. -/
abbrev Bytes := String

/-- Modelled from the spec: the declaration of `model.Message` is not among the
sources; the client frame carries `Data`, `Target` and `Type` (here `Type_`), the
three fields `CharRead` reads. -/
structure Message where
  Data : String
  Target : Int
  Type_ : String
deriving DecidableEq, Repr

/-- Modelled from the spec: the declaration of `model.Response` is not among
the sources; the envelope carries `Data`, `Target`, `Type` (here
`Type_`) and `FormId`, the four fields `CharRead` writes. -/
structure Response where
  Data : String
  Target : Int
  Type_ : String
  FormId : Int
deriving DecidableEq, Repr

/-- The calls into `encoding/json`, a library outside the repository:
`UnmarshalMessage` is `json.Unmarshal(message, &Message)` (`none` when it
returns an error), `UnmarshalResponse` is the value of the `Response` variable
after `json.Unmarshal(delivery.Body, &Response)` whose error is ignored,
`Marshal` is `json.Marshal(Response)` (`none` when it returns an error),
`MarshalInitial` is `json.Marshal(request.InitialInformation{Id: ID})` with
the error ignored. -/
structure Json where
  UnmarshalMessage : Bytes → Option Message
  UnmarshalResponse : Bytes → Response
  Marshal : Response → Option Bytes
  MarshalInitial : Int → Bytes

/-- Modelled from the spec: the package `pkg` that declares `RabbitMQ` is not
among the sources; a node channel is a broker handle bound to one node
identifier, and `id` tells two handles opened for the same node apart. -/
structure RabbitMQ where
  QueueName : String
  id : Nat
deriving DecidableEq, Repr

/-- Modelled from the spec: `pkg.NewRabbitMQSimple(s)` is not among the
sources; it opens a new channel bound to the node `s`. -/
def NewRabbitMQSimple (fresh : Nat) (s : String) : RabbitMQ :=
  { QueueName := s, id := fresh }

/-- The connection record `request.Node`: the socket, the outbound queue
`Data`, the exit signal `Exit` and the once-guard `ExitFlag`, each a handle. -/
structure Node where
  Conn : Nat
  Data : Nat
  Exit : Nat
  ExitFlag : Nat
deriving DecidableEq, Repr

/-- The three goroutines `ChatHome` starts. -/
inductive Goroutine where
  | ChatWrite
  | CharRead
  | CharExit
deriving DecidableEq, Repr

/-- The observable actions of the program, in the order they happen. -/
inductive Effect where
  /-- The call `model.ActiveConnWG.Add(1)`. -/
  | ActiveConnAdd
  /-- The call `model.ActiveConnWG.Done()`. -/
  | ActiveConnDone
  /-- The call `RDB.RPop(LoginBucket)` with its result. -/
  | RPop (result : Option Int)
  /-- The call `RDB.LPush(LoginBucket, v)`. -/
  | LPush (v : Int)
  /-- The call `RDB.Set(key, value, 0)`. -/
  | RedisSet (key value : String)
  /-- The call `RDB.Del(key)`. -/
  | RedisDel (key : String)
  /-- The call `RDB.SAdd(key, member)`. -/
  | SAdd (key member : String)
  /-- The call `RDB.SRem(key, member)`. -/
  | SRem (key member : String)
  /-- The call `RDB.HDel(Nodes, field)`. -/
  | HDel (field : String)
  /-- The result of `Upgrader.Upgrade`: the socket or an error. -/
  | Upgrade (conn : Option Nat)
  /-- The assignment `model.ConnectionPool[ID] = Node`. -/
  | PoolInsert (ID : Int) (node : Node)
  /-- The call `delete(model.ConnectionPool, ID)`. -/
  | PoolDelete (ID : Int)
  /-- The call `Conn.Close()` on a socket. -/
  | ConnClose (conn : Nat)
  /-- The call `close(ch)` on a channel. -/
  | Close (ch : Nat)
  /-- The call `Conn.WriteMessage(websocket.TextMessage, body)`. -/
  | WriteMessage (conn : Nat) (body : Bytes)
  /-- The send `node.Data <- body` on the outbound queue `ch`. -/
  | Send (ch : Nat) (body : Bytes)
  /-- The send on the nil channel of a zero `Node`, which blocks forever. -/
  | SendNil (body : Bytes)
  /-- The call `ExitFlag.Do(func() { Exit <- true })`. -/
  | ExitFlagDo (once exit : Nat)
  /-- A `go` statement. -/
  | Go (g : Goroutine) (node : Node)
  /-- The call `pkg.NewRabbitMQSimple(s)` and the handle it returns. -/
  | NewRabbitMQSimple (s : String) (mq : RabbitMQ)
  /-- The call `Destory()` on a channel. -/
  | Destory (mq : RabbitMQ)
  /-- The call `RabbieMqPoll[mark].PublishSimple(body)` on an existing entry. -/
  | PublishSimple (mark : String) (mq : RabbitMQ) (body : Bytes)
  /-- A method call on the nil entry `RabbieMqPoll[mark]` of a missing key. -/
  | NilDeref (mark : String)
deriving DecidableEq, Repr

/-- How a loop body leaves: `next` goes on with the next item, `stop` is a
`return`, `panic` is a nil dereference, `blocked` is a send that never
completes. -/
inductive Ctl where
  | next
  | stop
  | panic
  | blocked
deriving DecidableEq, Repr

/-- The state of one node process together with the shared store: the package
variables `OnlyMark`, `RDB`, `ConnectionPool`, `RabbieMqPoll` and
`ActiveConnWG`, and the next unused handle. -/
structure World where
  OnlyMark : String
  RDB : Redis
  ConnectionPool : List (Int × Node)
  RabbieMqPoll : List (String × RabbitMQ)
  ActiveConnWG : Nat
  fresh : Nat
deriving DecidableEq, Repr

/-! ## `inits.PullAndConnRabbieMq` -/

/-- The body of the first loop of `PullAndConnRabbieMq`: open a channel for `s`
when `RabbieMqPoll` has none, and mark `s` in `ConnectedNodes`. -/
def PullAndConnRabbieMq_open (acc : World × List (String × Bool) × List Effect) (s : String) :
    World × List (String × Bool) × List Effect :=
  let (w, ConnectedNodes, es) := acc
  match mapGet w.RabbieMqPoll s with
  | some _ => (w, mapSet ConnectedNodes s true, es)
  | none =>
    let Conn := NewRabbitMQSimple w.fresh s
    ({ w with RabbieMqPoll := mapSet w.RabbieMqPoll s Conn, fresh := w.fresh + 1 },
      mapSet ConnectedNodes s true, es ++ [Effect.NewRabbitMQSimple s Conn])

/-- The body of the second loop of `PullAndConnRabbieMq`: destroy and delete the
channel of `s` when `ConnectedNodes[s]` is false.  A key whose entry has been
deleted is not produced by the `range`. -/
def PullAndConnRabbieMq_close (ConnectedNodes : List (String × Bool))
    (acc : World × List Effect) (s : String) : World × List Effect :=
  let (w, es) := acc
  match mapGet w.RabbieMqPoll s with
  | none => (w, es)
  | some mq =>
    if (mapGet ConnectedNodes s).getD false then (w, es)
    else ({ w with RabbieMqPoll := mapDelete w.RabbieMqPoll s }, es ++ [Effect.Destory mq])

/-- `inits.PullAndConnRabbieMq`: one reconciliation pass. -/
def PullAndConnRabbieMq (w : World) : World × List Effect :=
  let OrderOnlyMark := w.RDB.HGetAllNodes
  let (w1, ConnectedNodes, es1) :=
    (mapKeys OrderOnlyMark).foldl PullAndConnRabbieMq_open (w, [], [])
  (mapKeys w1.RabbieMqPoll).foldl (PullAndConnRabbieMq_close ConnectedNodes) (w1, es1)

/-! ## `handler.CharRead` -/

/-- The two statements before every publish in `CharRead`: look the mark up in
`RabbieMqPoll` and run `PullAndConnRabbieMq` when it is missing. -/
def CharRead_ensure (w : World) (mark : String) : World × List Effect :=
  match mapGet w.RabbieMqPoll mark with
  | some _ => (w, [])
  | none => PullAndConnRabbieMq w

/-- The `group` loop of `CharRead` over the marks of the Nodes directory. -/
def CharRead_group (data : Bytes) : World → List String → World × List Effect × Ctl
  | w, [] => (w, [], Ctl.next)
  | w, mark :: rest =>
    let (w1, es1) := CharRead_ensure w mark
    match mapGet w1.RabbieMqPoll mark with
    | none => (w1, es1 ++ [Effect.NilDeref mark], Ctl.panic)
    | some mq =>
      let (w2, es2, c) := CharRead_group data w1 rest
      (w2, es1 ++ [Effect.PublishSimple mark mq data] ++ es2, c)

/-- The envelope `CharRead` builds from a decoded frame and the connection's ID. -/
def CharRead_Response (Message : Message) (ID : Int) : Response :=
  { Data := Message.Data, Target := Message.Target, Type_ := Message.Type_, FormId := ID }

/-- The reply `CharRead` builds when the target of a `once` frame has no
presence record. -/
def CharRead_offline (ID : Int) : Response :=
  { Data := "当前用户不在线", Target := ID, Type_ := "once", FormId := -1 }

/-- The body of the `CharRead` loop after a frame has been read. -/
def CharRead_frame (J : Json) (w : World) (node : Node) (ID : Int) (message : Bytes) :
    World × List Effect × Ctl :=
  match J.UnmarshalMessage message with
  | none => (w, [Effect.Send node.Data "Message resolution failed"], Ctl.next)
  | some Message =>
    match J.Marshal (CharRead_Response Message ID) with
    | none => (w, [Effect.Send node.Data "Message push failed"], Ctl.next)
    | some data =>
      if Message.Type_ = "group" then
        CharRead_group data w (mapKeys w.RDB.HGetAllNodes)
      else if Message.Type_ = "once" then
        match w.RDB.Get (Sprintf_d Message.Target) with
        | none =>
          let data := (J.Marshal (CharRead_offline ID)).getD ""
          (w, [Effect.WriteMessage node.Conn data], Ctl.next)
        | some OtherOnlyMark =>
          let (w1, es1) := CharRead_ensure w OtherOnlyMark
          match mapGet w1.RabbieMqPoll OtherOnlyMark with
          | none => (w1, es1 ++ [Effect.NilDeref OtherOnlyMark], Ctl.panic)
          | some mq =>
            (w1, es1 ++ [Effect.PublishSimple OtherOnlyMark mq data,
              Effect.WriteMessage node.Conn data], Ctl.next)
      else
        (w, [Effect.Send node.Data "Illegal import the type"], Ctl.next)

/-- What `Conn.ReadMessage()` returns: a frame or an error. -/
inductive ReadResult where
  | frame (message : Bytes)
  | err
deriving DecidableEq, Repr

/-- `handler.CharRead` on the sequence of results of `ReadMessage`; the empty
sequence leaves the goroutine waiting in `ReadMessage`. -/
def CharRead (J : Json) (w : World) (node : Node) (ID : Int) :
    List ReadResult → World × List Effect × Ctl
  | [] => (w, [], Ctl.next)
  | ReadResult.err :: _ => (w, [Effect.ExitFlagDo node.ExitFlag node.Exit], Ctl.stop)
  | ReadResult.frame message :: rest =>
    match CharRead_frame J w node ID message with
    | (w1, es1, Ctl.next) =>
      let (w2, es2, c) := CharRead J w1 node ID rest
      (w2, es1 ++ es2, c)
    | r => r

/-- What `ChatWrite` meets in one turn of its loop: an item of `Data` with the
outcome of writing it to the socket, or the closed queue. -/
inductive DataRecv where
  | item (data : Bytes) (writeOk : Bool)
  | closed
deriving DecidableEq, Repr

/-- `handler.ChatWrite` on the sequence of receives from `Data`. -/
def ChatWrite (node : Node) : List DataRecv → List Effect × Ctl
  | [] => ([], Ctl.next)
  | DataRecv.closed :: _ => ([Effect.ExitFlagDo node.ExitFlag node.Exit], Ctl.stop)
  | DataRecv.item data writeOk :: rest =>
    if writeOk then
      let (es, c) := ChatWrite node rest
      (Effect.WriteMessage node.Conn data :: es, c)
    else
      ([Effect.WriteMessage node.Conn data, Effect.ExitFlagDo node.ExitFlag node.Exit], Ctl.stop)

/-! ## `inits.RabbitMqSumerRun` -/

/-- The body of the consumer loop for one delivery. -/
def RabbitMqSumerRun_delivery (J : Json) (w : World) (Body : Bytes) : List Effect × Ctl :=
  let Response := J.UnmarshalResponse Body
  if Response.Type_ = "group" then
    (w.ConnectionPool.map (fun e => Effect.Send e.2.Data Body), Ctl.next)
  else if Response.Type_ = "once" then
    match mapGet w.ConnectionPool Response.Target with
    | some node => ([Effect.Send node.Data Body], Ctl.next)
    | none => ([Effect.SendNil Body], Ctl.blocked)
  else
    ([], Ctl.next)

/-- The consumer loop over the deliveries of the queue, in one state of the
registry. -/
def RabbitMqSumerRun_loop (J : Json) (w : World) : List Bytes → List Effect × Ctl
  | [] => ([], Ctl.next)
  | Body :: rest =>
    match RabbitMqSumerRun_delivery J w Body with
    | (es1, Ctl.next) =>
      let (es2, c) := RabbitMqSumerRun_loop J w rest
      (es1 ++ es2, c)
    | r => r

/-- `inits.RabbitMqSumerRun`: `simple` is what `ConsumeSimple()` returns, the
deliveries or an error. -/
def RabbitMqSumerRun (J : Json) (w : World) (simple : Option (List Bytes)) : List Effect × Ctl :=
  match mapGet w.RabbieMqPoll w.OnlyMark with
  | none => ([Effect.NilDeref w.OnlyMark], Ctl.panic)
  | some _ =>
    match simple with
    | none => ([], Ctl.stop)
    | some deliveries => RabbitMqSumerRun_loop J w deliveries

/-! ## `handler.ChatHome` -/

/-- What the environment decides for one call of `ChatHome`: the result of
`Upgrader.Upgrade` (the socket, or `none` for an error). -/
structure Request where
  Upgrade : Option Nat
deriving DecidableEq, Repr

/-- The deferred calls of `ChatHome`, with their arguments as evaluated at the
`defer` statement. -/
inductive Defer where
  /-- The deferred `model.ActiveConnWG.Done()`. -/
  | ActiveConnDone
  /-- The deferred `model.RDB.LPush(model.Ctx, "LoginBucket", ID)`. -/
  | LPush (ID : Int)
  /-- The deferred closure: `Node.Conn.Close()`, `close(Node.Data)`,
  `close(Node.Exit)`. -/
  | CloseNode (node : Node)
  /-- The deferred `delete(model.ConnectionPool, ID)`. -/
  | PoolDelete (ID : Int)
  /-- The deferred `model.RDB.Del(model.Ctx, key)`. -/
  | RedisDel (key : String)
  /-- The deferred `model.RDB.SRem(model.Ctx, key, member)`. -/
  | SRem (key member : String)
deriving DecidableEq, Repr

/-- Run one deferred call. -/
def runDefer (w : World) : Defer → World × List Effect
  | Defer.ActiveConnDone =>
    ({ w with ActiveConnWG := w.ActiveConnWG - 1 }, [Effect.ActiveConnDone])
  | Defer.LPush ID =>
    ({ w with RDB := w.RDB.LPush ID }, [Effect.LPush ID])
  | Defer.CloseNode node =>
    (w, [Effect.ConnClose node.Conn, Effect.Close node.Data, Effect.Close node.Exit])
  | Defer.PoolDelete ID =>
    ({ w with ConnectionPool := mapDelete w.ConnectionPool ID }, [Effect.PoolDelete ID])
  | Defer.RedisDel key =>
    ({ w with RDB := w.RDB.Del key }, [Effect.RedisDel key])
  | Defer.SRem key member =>
    ({ w with RDB := w.RDB.SRem key member }, [Effect.SRem key member])

/-- Run the defer stack of a returning function: a `defer` statement pushes at
the head, the return runs the calls from the head down (last in, first out). -/
def runDefers (w : World) : List Defer → World × List Effect
  | [] => (w, [])
  | d :: rest =>
    let (w1, es1) := runDefer w d
    let (w2, es2) := runDefers w1 rest
    (w2, es1 ++ es2)

/-- Where `ChatHome` stands when it reaches a `return` or blocks in
`WG.Wait()`: the state, the effects so far, the defer stack (head = deferred
last), and, when it blocks in `WG.Wait()`, the connection it serves. -/
structure Entered where
  w : World
  trace : List Effect
  defers : List Defer
  serving : Option (Int × Node)
deriving DecidableEq, Repr

/-- `handler.ChatHome` from its first statement to the early `return` or to
`WG.Wait()`. -/
def ChatHome_enter (J : Json) (w : World) (req : Request) : Entered :=
  let w := { w with ActiveConnWG := w.ActiveConnWG + 1 }
  let defers := [Defer.ActiveConnDone]
  match w.RDB.RPop with
  | none =>
    { w := w, trace := [Effect.ActiveConnAdd, Effect.RPop none], defers := defers,
      serving := none }
  | some (ID, rdb) =>
    let w := { w with RDB := rdb }
    let defers := Defer.LPush ID :: defers
    match req.Upgrade with
    | none =>
      { w := w, trace := [Effect.ActiveConnAdd, Effect.RPop (some ID), Effect.Upgrade none],
        defers := defers, serving := none }
    | some conn =>
      let Node : Node :=
        { Conn := conn, Data := w.fresh, Exit := w.fresh + 1, ExitFlag := w.fresh + 2 }
      let w := { w with fresh := w.fresh + 3 }
      let defers := Defer.CloseNode Node :: defers
      let w := { w with ConnectionPool := mapSet w.ConnectionPool ID Node }
      let defers := Defer.PoolDelete ID :: defers
      let w := { w with RDB := w.RDB.Set (Sprintf_d ID) w.OnlyMark }
      let defers := Defer.RedisDel (Sprintf_d ID) :: defers
      let w := { w with RDB := w.RDB.SAdd w.OnlyMark (Sprintf_d ID) }
      let defers := Defer.SRem w.OnlyMark (Sprintf_d ID) :: defers
      { w := w,
        trace := [Effect.ActiveConnAdd, Effect.RPop (some ID), Effect.Upgrade (some conn),
          Effect.PoolInsert ID Node, Effect.RedisSet (Sprintf_d ID) w.OnlyMark,
          Effect.SAdd w.OnlyMark (Sprintf_d ID),
          Effect.WriteMessage conn (J.MarshalInitial ID),
          Effect.Go Goroutine.ChatWrite Node, Effect.Go Goroutine.CharRead Node,
          Effect.Go Goroutine.CharExit Node],
        defers := defers, serving := some (ID, Node) }

/-- The return of `ChatHome` from the state `e`: at once for an early `return`,
after the exit watcher has released `WG.Wait()` otherwise.  The effects are
those of the deferred calls. -/
def ChatHome_return (e : Entered) : World × List Effect :=
  runDefers e.w e.defers

/-- The teardown effects of a served connection: what `ChatHome` does after the
exit watcher returns. -/
def ChatHome_teardown (J : Json) (w : World) (req : Request) : List Effect :=
  (ChatHome_return (ChatHome_enter J w req)).2

/-! ## The exit signal of one connection -/

/-- The state of a `sync.Once`: not yet called, inside the first call of `Do`
(its function is running), or done. -/
inductive OnceState where
  | idle
  | running
  | done
deriving DecidableEq, Repr

/-- The exit machinery of one connection: the once-guard `ExitFlag`; the number
of send statements `Exit <- true` executed so far; whether `CharExit` has
received `true` and released `WG.Wait()`; whether the teardown has closed
`Exit`; whether a send was executed on the closed `Exit`. -/
structure ExitState where
  ExitFlag : OnceState
  sends : Nat
  released : Bool
  closed : Bool
  sendOnClosed : Bool
deriving DecidableEq, Repr

/-- The events on the exit machinery: the three failure observations and the
shutdown broadcast call `ExitFlag.Do`; `CharExit` receives from `Exit`;
`ChatHome` returns from `WG.Wait()` and its deferred closure closes `Exit`. -/
inductive ExitEvent where
  /-- `CharRead`: `ReadMessage` failed. -/
  | readFail
  /-- `ChatWrite`: `WriteMessage` failed. -/
  | writeFail
  /-- `ChatWrite`: the queue `Data` is closed. -/
  | dataClosed
  /-- `CloseUserConn`: the shutdown broadcast reaches this connection. -/
  | shutdown
  /-- `CharExit`: the receive `<-node.Exit` completes. -/
  | watcherRecv
  /-- `ChatHome`: the deferred closure runs `close(Node.Exit)`. -/
  | teardown
deriving DecidableEq, Repr

/-- The call `node.ExitFlag.Do(func() { node.Exit <- true })`: the first caller
enters the function and executes the send, which stays pending until
`CharExit` receives; a later caller finds the guard taken and sends nothing. -/
def ExitFlagDo (s : ExitState) : ExitState :=
  match s.ExitFlag with
  | OnceState.idle =>
    { s with ExitFlag := OnceState.running, sends := s.sends + 1,
             sendOnClosed := s.sendOnClosed || s.closed }
  | OnceState.running => s
  | OnceState.done => s

/-- `CharExit`: the receive completes only when a send is pending; the value is
`true`, so the watcher calls `s.Done()` and returns, and the sender leaves the
once-guard. -/
def CharExit_recv (s : ExitState) : ExitState :=
  match s.ExitFlag with
  | OnceState.running =>
    if s.released then s else { s with ExitFlag := OnceState.done, released := true }
  | _ => s

/-- The deferred `close(Node.Exit)`: it runs only after `WG.Wait()` has been
released; a sender still pending on the channel would panic. -/
def ChatHome_closeExit (s : ExitState) : ExitState :=
  if s.released && !s.closed then
    { s with closed := true,
             sendOnClosed := s.sendOnClosed || decide (s.ExitFlag = OnceState.running) }
  else s

/-- One event on the exit machinery. -/
def exitStep (s : ExitState) : ExitEvent → ExitState
  | ExitEvent.readFail => ExitFlagDo s
  | ExitEvent.writeFail => ExitFlagDo s
  | ExitEvent.dataClosed => ExitFlagDo s
  | ExitEvent.shutdown => ExitFlagDo s
  | ExitEvent.watcherRecv => CharExit_recv s
  | ExitEvent.teardown => ChatHome_closeExit s

/-- The exit machinery of a freshly served connection. -/
def ExitState.init : ExitState :=
  { ExitFlag := OnceState.idle, sends := 0, released := false, closed := false,
    sendOnClosed := false }

/-- Run an interleaving of events. -/
def exitRun (s : ExitState) (evs : List ExitEvent) : ExitState :=
  evs.foldl exitStep s

/-! ## `main.Exit` -/

/-- `main.CloseUserConn`: call `ExitFlag.Do` with the exit send on every entry of
`ConnectionPool`.  The map itself is not written. -/
def CloseUserConn (w : World) : World × List Effect :=
  (w, w.ConnectionPool.map (fun e => Effect.ExitFlagDo e.2.ExitFlag e.2.Exit))

/-- The body of the loop of `CloseRabbieMqConn` for the entry `(s, mq)`: destroy
the channel and delete the key.  A key whose entry has been deleted is not
produced by the `range`. -/
def CloseRabbieMqConn_step (acc : World × List Effect) (e : String × RabbitMQ) :
    World × List Effect :=
  let (w, es) := acc
  match mapGet w.RabbieMqPoll e.1 with
  | none => (w, es)
  | some _ =>
    ({ w with RabbieMqPoll := mapDelete w.RabbieMqPoll e.1 }, es ++ [Effect.Destory e.2])

/-- `main.CloseRabbieMqConn`: destroy and delete every entry of `RabbieMqPoll`. -/
def CloseRabbieMqConn (w : World) : World × List Effect :=
  w.RabbieMqPoll.foldl CloseRabbieMqConn_step (w, [])

/-- `main.RedisDelete`: delete the key `OnlyMark` (the node's membership set)
and the field `OnlyMark` of the hash "Nodes". -/
def RedisDelete (w : World) : World × List Effect :=
  ({ w with RDB := (w.RDB.Del w.OnlyMark).HDelNodes w.OnlyMark },
    [Effect.RedisDel w.OnlyMark, Effect.HDel w.OnlyMark])

/-- `main.Exit`: `CloseUserConn`, `CloseRabbieMqConn`, `RedisDelete`, in this
order.  It waits for nothing else: `ActiveConnWG.Wait()` is not called. -/
def Exit (w : World) : World × List Effect :=
  let (w1, es1) := CloseUserConn w
  let (w2, es2) := CloseRabbieMqConn w1
  let (w3, es3) := RedisDelete w2
  (w3, es1 ++ es2 ++ es3)

/-! ## The identity pool as a transition system -/

/-- The cluster as the identity pool sees it: the shared store and the IDs held
by the `ChatHome` calls that are between their `RPop` and their deferred
`LPush` (the live connections, on whatever node). -/
structure PoolState where
  rdb : Redis
  live : List Int
deriving DecidableEq, Repr

/-- Events of the identity pool: a node starts (`RedisMakeBucket`), a client
connects (`RPop` in `ChatHome`), the `i`-th live connection is torn down (the
deferred `LPush`). -/
inductive PoolEvent where
  | start
  | connect
  | disconnect (i : Nat)
deriving DecidableEq, Repr

/-- One event of the identity pool. -/
def poolStep (s : PoolState) : PoolEvent → PoolState
  | .start => { s with rdb := RedisMakeBucket s.rdb }
  | .connect =>
    match s.rdb.RPop with
    | none => s
    | some (id, r) => { rdb := r, live := id :: s.live }
  | .disconnect i =>
    match s.live.get? i with
    | none => s
    | some id => { rdb := s.rdb.LPush id, live := s.live.eraseIdx i }

/-- Run a sequence of events. -/
def poolRun (s : PoolState) (evs : List PoolEvent) : PoolState :=
  evs.foldl poolStep s

/-- The pool before any node has started: the key is absent, nothing is live. -/
def PoolState.init : PoolState :=
  { rdb := Redis.empty, live := [] }

/-- No two live connections hold the same ID. -/
def liveDistinct (s : PoolState) : Prop :=
  s.live.Nodup

/-- The seeded ID `i` is in the pool exactly once or held by exactly one live
connection, not both and not neither. -/
def idAccounted (s : PoolState) (i : Int) : Prop :=
  s.rdb.LoginBucket.count i + s.live.count i = 1

instance (s : PoolState) : Decidable (liveDistinct s) :=
  inferInstanceAs (Decidable s.live.Nodup)

instance (s : PoolState) (i : Int) : Decidable (idAccounted s i) :=
  inferInstanceAs (Decidable (_ = 1))

/-- The trace on which the pool is exhausted when a second node starts: one
node starts, a hundred clients connect, another node starts, one more client
connects. -/
def exhaustThenRestart : List PoolEvent :=
  [PoolEvent.start] ++ List.replicate 100 PoolEvent.connect ++ [PoolEvent.start, PoolEvent.connect]

/-- The IDs `RedisMakeBucket` seeds, as the list it leaves under LoginBucket. -/
def seeded : List Int :=
  ((List.range 100).map Int.ofNat).reverse

/-- The pool invariant: nothing is seeded and nothing is held, or the pool and
the live connections together hold every seeded ID exactly once. -/
def poolInv (s : PoolState) : Prop :=
  (s.rdb.LoginBucket = [] ∧ s.live = []) ∨ (s.rdb.LoginBucket ++ s.live).Perm seeded

/-- No node of the trace starts while the pool is exhausted, that is, with the
LoginBucket key gone and connections still live. -/
def startsSafe (s : PoolState) : List PoolEvent → Prop
  | [] => True
  | e :: rest =>
    (e = PoolEvent.start → s.rdb.LoginBucket ≠ [] ∨ s.live = []) ∧ startsSafe (poolStep s e) rest

/-- The invariant of the exit machinery: no send was executed on the closed
`Exit`; while the once-guard is untouched nothing was sent, released or closed;
while its function runs one send is pending and `Exit` is open; once it is done
one value was sent and the watcher has released `WG.Wait()`. -/
def exitInv (s : ExitState) : Prop :=
  s.sendOnClosed = false ∧
    (s.ExitFlag = OnceState.idle → s.sends = 0 ∧ s.released = false ∧ s.closed = false) ∧
    (s.ExitFlag = OnceState.running → s.sends = 1 ∧ s.released = false ∧ s.closed = false) ∧
    (s.ExitFlag = OnceState.done → s.sends = 1 ∧ s.released = true)

/-- Whether `ConnectedNodes[x]` is true. -/
def connected (ConnectedNodes : List (String × Bool)) (x : String) : Bool :=
  (mapGet ConnectedNodes x).getD false

/-! ## Reading traces -/

/-- The broker publishes of a trace: the mark whose channel was used and the
body, in order. -/
def publishes (es : List Effect) : List (String × Bytes) :=
  es.filterMap (fun e =>
    match e with
    | Effect.PublishSimple mark _ body => some (mark, body)
    | _ => none)

/-- The sends onto outbound queues (`Data` channels) of a trace, in order. -/
def queued (es : List Effect) : List (Nat × Bytes) :=
  es.filterMap (fun e =>
    match e with
    | Effect.Send ch body => some (ch, body)
    | _ => none)

/-- The direct socket writes of a trace, in order. -/
def written (es : List Effect) : List (Nat × Bytes) :=
  es.filterMap (fun e =>
    match e with
    | Effect.WriteMessage conn body => some (conn, body)
    | _ => none)

/-- The calls of `ExitFlag.Do` of a trace, in order. -/
def exitCalls (es : List Effect) : List (Nat × Nat) :=
  es.filterMap (fun e =>
    match e with
    | Effect.ExitFlagDo once exit => some (once, exit)
    | _ => none)

/-- The method calls on missing `RabbieMqPoll` entries of a trace, in order. -/
def nilDerefs (es : List Effect) : List String :=
  es.filterMap (fun e =>
    match e with
    | Effect.NilDeref mark => some mark
    | _ => none)

/-- The channels destroyed in a trace, in order. -/
def destroyed (es : List Effect) : List RabbitMQ :=
  es.filterMap (fun e =>
    match e with
    | Effect.Destory mq => some mq
    | _ => none)

/-- The goroutines started in a trace, in order. -/
def started (es : List Effect) : List (Goroutine × Node) :=
  es.filterMap (fun e =>
    match e with
    | Effect.Go g node => some (g, node)
    | _ => none)

/-- An effect of the reconciler: a channel opened or destroyed. -/
def isReconcile : Effect → Bool
  | Effect.NewRabbitMQSimple _ _ => true
  | Effect.Destory _ => true
  | _ => false

/-! ## The orders the specification gives -/

/-- The teardown order as the specification lists it: close the socket, close
`Data`, close `Exit`, remove the ID from `ConnectionPool`, withdraw the
presence record, push the ID back onto LoginBucket. -/
def specTeardown (ID : Int) (node : Node) : List Effect :=
  [Effect.ConnClose node.Conn, Effect.Close node.Data, Effect.Close node.Exit,
    Effect.PoolDelete ID, Effect.RedisDel (Sprintf_d ID), Effect.LPush ID]

/-! ## A concrete node -/

/-- The JSON text of an envelope whose strings need no escaping. -/
def renderResponse (r : Response) : Bytes :=
  "\x7b\"Data\":\"" ++ r.Data ++ "\",\"Target\":" ++ toString r.Target ++
    ",\"Type\":\"" ++ r.Type_ ++ "\",\"FormId\":" ++ toString r.FormId ++ "\x7d"

/-- A codec given by tables: the frames and deliveries that decode, with what
they decode to; every other frame is malformed, every other delivery leaves the
zero envelope. -/
def Json.ofTables (frames : List (Bytes × Message)) (deliveries : List (Bytes × Response)) : Json :=
  { UnmarshalMessage := fun b => mapGet frames b
    UnmarshalResponse := fun b =>
      (mapGet deliveries b).getD { Data := "", Target := 0, Type_ := "", FormId := 0 }
    Marshal := fun r => some (renderResponse r)
    MarshalInitial := fun ID => "\x7b\"Id\":" ++ toString ID ++ "\x7d" }

/-- Five client frames: a group message, messages to the users 5 and 6, a
message to the absent user 99, and a frame with an unknown type; and two
deliveries, a group envelope and one for user 2. -/
def demoJson : Json :=
  Json.ofTables
    [("g", { Data := "hi", Target := 0, Type_ := "group" }),
     ("o5", { Data := "hi", Target := 5, Type_ := "once" }),
     ("o6", { Data := "hi", Target := 6, Type_ := "once" }),
     ("o99", { Data := "hi", Target := 99, Type_ := "once" }),
     ("x", { Data := "hi", Target := 0, Type_ := "shout" })]
    [("dg", { Data := "hi", Target := 0, Type_ := "group", FormId := 1 }),
     ("d2", { Data := "hi", Target := 2, Type_ := "once", FormId := 1 })]

/-- The node "a" with users 1 and 2 connected, user 5 on node "b", a stale
presence record of user 6 on the vanished node "c", IDs 7 and 8 in the pool,
the Nodes directory listing "a" and "b", and open channels to "a", "b" and the
vanished node "z". -/
def demoWorld : World :=
  { OnlyMark := "a"
    RDB :=
      { LoginBucket := [8, 7]
        Strings := [("1", "a"), ("2", "a"), ("5", "b"), ("6", "c")]
        Sets := [("a", ["1", "2"]), ("b", ["5"])]
        Nodes := [("a", "ok"), ("b", "ok")] }
    ConnectionPool :=
      [(1, { Conn := 10, Data := 11, Exit := 12, ExitFlag := 13 }),
       (2, { Conn := 20, Data := 21, Exit := 22, ExitFlag := 23 })]
    RabbieMqPoll :=
      [("a", { QueueName := "a", id := 0 }), ("b", { QueueName := "b", id := 1 }),
       ("z", { QueueName := "z", id := 2 })]
    ActiveConnWG := 2
    fresh := 30 }

/-- The connection of user 1 in `demoWorld`. -/
def demoNode : Node :=
  { Conn := 10, Data := 11, Exit := 12, ExitFlag := 13 }

/-- Two deliveries of type "once": one for user 2, who is connected to the
node "a", and one for user 99, who is not. -/
def demoJsonOnce : Json :=
  Json.ofTables []
    [("d2", { Data := "hi", Target := 2, Type_ := "once", FormId := 1 }),
     ("d99", { Data := "hi", Target := 99, Type_ := "once", FormId := 1 })]

/-- The node of `demoWorld` without the stale presence record of user 6: every
presence record names a node of the Nodes directory. -/
def demoWorldClean : World :=
  { demoWorld with
    RDB := { demoWorld.RDB with Strings := [("1", "a"), ("2", "a"), ("5", "b")] } }

/-- The node of `demoWorld` when every ID of the pool is taken. -/
def demoWorldExhausted : World :=
  { demoWorld with RDB := { demoWorld.RDB with LoginBucket := [] } }

/-- Every presence record names a node that is in the Nodes directory. -/
def presenceInNodes (w : World) : Prop :=
  ∀ e ∈ w.RDB.Strings, e.2 ∈ mapKeys w.RDB.HGetAllNodes

instance (w : World) : Decidable (presenceInNodes w) :=
  inferInstanceAs (Decidable (∀ e ∈ w.RDB.Strings, e.2 ∈ mapKeys w.RDB.HGetAllNodes))

/-! ## Theorems -/

/-! ### Go maps -/

theorem mapGet_isSome_iff {κ ν : Type} [DecidableEq κ] (m : List (κ × ν)) (k : κ) :
    (mapGet m k).isSome = true ↔ k ∈ mapKeys m := by
  induction m with
  | nil => simp [mapGet, mapKeys]
  | cons e rest ih =>
    obtain ⟨k', v⟩ := e
    by_cases h : k' = k
    · simp [mapGet, mapKeys, h]
    · have h' : ¬ k = k' := fun e => h e.symm
      simp only [mapKeys] at ih
      simp [mapGet, mapKeys, h, h', ih]

theorem mapGet_eq_none_iff {κ ν : Type} [DecidableEq κ] (m : List (κ × ν)) (k : κ) :
    mapGet m k = none ↔ k ∉ mapKeys m := by
  rw [← mapGet_isSome_iff]
  cases mapGet m k <;> simp

theorem mapKeys_mapSet {κ ν : Type} [DecidableEq κ] (m : List (κ × ν)) (k : κ) (v : ν) (x : κ) :
    x ∈ mapKeys (mapSet m k v) ↔ x = k ∨ x ∈ mapKeys m := by
  induction m with
  | nil => simp [mapSet, mapKeys]
  | cons e rest ih =>
    obtain ⟨k', v'⟩ := e
    by_cases h : k' = k
    · subst h
      simp [mapSet, mapKeys]
    · simp only [mapKeys] at ih
      simp only [mapSet, h, if_false, mapKeys, List.map_cons, List.mem_cons, ih]
      tauto

theorem mapGet_mapSet_self {κ ν : Type} [DecidableEq κ] (m : List (κ × ν)) (k : κ) (v : ν) :
    mapGet (mapSet m k v) k = some v := by
  induction m with
  | nil => simp [mapSet, mapGet]
  | cons e rest ih =>
    obtain ⟨k', v'⟩ := e
    by_cases h : k' = k
    · simp [mapSet, mapGet, h]
    · simp [mapSet, mapGet, h, ih]

theorem mapGet_mapSet_ne {κ ν : Type} [DecidableEq κ] (m : List (κ × ν)) (k x : κ) (v : ν)
    (hx : x ≠ k) : mapGet (mapSet m k v) x = mapGet m x := by
  have hkx : ¬ k = x := fun e => hx e.symm
  induction m with
  | nil => simp [mapSet, mapGet, hkx]
  | cons e rest ih =>
    obtain ⟨k', v'⟩ := e
    by_cases h : k' = k
    · subst h
      simp [mapSet, mapGet, hkx]
    · by_cases h2 : k' = x
      · subst h2
        simp [mapSet, mapGet, h]
      · simp [mapSet, mapGet, h, h2, ih]

theorem mapKeys_mapDelete {κ ν : Type} [DecidableEq κ] (m : List (κ × ν)) (k x : κ) :
    x ∈ mapKeys (mapDelete m k) ↔ x ≠ k ∧ x ∈ mapKeys m := by
  simp only [mapKeys, mapDelete, List.mem_map, List.mem_filter, decide_eq_true_eq]
  constructor
  · rintro ⟨e, ⟨he, hne⟩, rfl⟩
    exact ⟨hne, e, he, rfl⟩
  · rintro ⟨hne, e, he, rfl⟩
    exact ⟨e, ⟨he, hne⟩, rfl⟩

theorem mapGet_mapDelete_ne {κ ν : Type} [DecidableEq κ] (m : List (κ × ν)) (k x : κ)
    (hx : x ≠ k) : mapGet (mapDelete m k) x = mapGet m x := by
  have hkx : ¬ k = x := fun e => hx e.symm
  induction m with
  | nil => simp [mapDelete, mapGet]
  | cons e rest ih =>
    obtain ⟨k', v'⟩ := e
    unfold mapDelete at ih ⊢
    rw [List.filter_cons]
    by_cases h : k' = k
    · subst h
      simp only [ne_eq, not_true_eq_false, decide_False, Bool.false_eq_true, if_false]
      rw [ih]
      simp [mapGet, hkx]
    · simp only [ne_eq, h, not_false_eq_true, decide_True, if_true]
      by_cases h2 : k' = x
      · simp [mapGet, h2]
      · simp only [mapGet, h2, if_false]
        exact ih

/-! ### The identity pool -/

theorem foldl_LPush (l : List Nat) (r : Redis) :
    (l.foldl (fun acc (i : Nat) => acc.LPush (Int.ofNat i)) r).LoginBucket
      = (l.map Int.ofNat).reverse ++ r.LoginBucket := by
  induction l generalizing r with
  | nil => simp
  | cons a rest ih =>
    rw [List.foldl_cons, ih]
    simp [Redis.LPush]

theorem RedisMakeBucket_of_exists (r : Redis) (h : r.LoginBucket ≠ []) :
    RedisMakeBucket r = r := by
  simp [RedisMakeBucket, Redis.ExistsLoginBucket, h]

theorem RedisMakeBucket_of_absent (r : Redis) (h : r.LoginBucket = []) :
    (RedisMakeBucket r).LoginBucket = seeded := by
  have h0 : r.ExistsLoginBucket ≠ 1 := by simp [Redis.ExistsLoginBucket, h]
  rw [RedisMakeBucket, if_neg h0, foldl_LPush, h, List.append_nil, seeded]

theorem poolInv_step (s : PoolState) (e : PoolEvent) (hinv : poolInv s)
    (hsafe : e = PoolEvent.start → s.rdb.LoginBucket ≠ [] ∨ s.live = []) :
    poolInv (poolStep s e) := by
  cases e with
  | start =>
    by_cases hb : s.rdb.LoginBucket = []
    · have hl : s.live = [] := by
        rcases hsafe rfl with h | h
        · exact absurd hb h
        · exact h
      right
      simp [poolStep, RedisMakeBucket_of_absent _ hb, hl]
    · simpa [poolStep, RedisMakeBucket_of_exists _ hb] using hinv
  | connect =>
    simp only [poolStep, Redis.RPop]
    cases hlast : s.rdb.LoginBucket.getLast? with
    | none => simpa using hinv
    | some v =>
      have hsplit : s.rdb.LoginBucket = s.rdb.LoginBucket.dropLast ++ [v] := by
        have hne : s.rdb.LoginBucket ≠ [] := by
          intro h0
          simp [h0] at hlast
        rw [List.getLast?_eq_getLast _ hne] at hlast
        have hv : s.rdb.LoginBucket.getLast hne = v := by simpa using hlast
        rw [← hv]
        exact (List.dropLast_append_getLast hne).symm
      right
      rcases hinv with ⟨hb, _⟩ | hperm
      · rw [hb] at hlast
        simp at hlast
      · simp only
        rw [hsplit] at hperm
        refine List.Perm.trans ?_ hperm
        simp only [List.append_assoc, List.singleton_append]
        exact List.Perm.refl _
  | disconnect i =>
    simp only [poolStep]
    cases hget : s.live.get? i with
    | none => simpa using hinv
    | some id =>
      right
      have hlt : i < s.live.length := by
        rw [List.get?_eq_some] at hget
        exact hget.1
      have hid : s.live[i] = id := by
        rw [List.get?_eq_some] at hget
        obtain ⟨h1, h2⟩ := hget
        simpa using h2
      have hperm_live : s.live.Perm (id :: s.live.eraseIdx i) := by
        rw [← hid]
        rw [List.eraseIdx_eq_take_drop_succ]
        have h3 : s.live = s.live.take i ++ s.live[i] :: s.live.drop (i + 1) := by
          rw [← List.drop_eq_getElem_cons hlt, List.take_append_drop]
        exact (List.Perm.of_eq h3).trans List.perm_middle
      rcases hinv with ⟨_, hl⟩ | hperm
      · rw [hl] at hlt
        simp at hlt
      · simp only [Redis.LPush]
        refine List.Perm.trans ?_ hperm
        refine List.Perm.trans ?_ (List.Perm.append_left _ hperm_live.symm)
        simp only [List.cons_append]
        exact List.perm_middle.symm

theorem poolInv_run (evs : List PoolEvent) (s : PoolState) (hinv : poolInv s)
    (hsafe : startsSafe s evs) : poolInv (poolRun s evs) := by
  induction evs generalizing s with
  | nil => simpa [poolRun] using hinv
  | cons e rest ih =>
    obtain ⟨h1, h2⟩ := hsafe
    simpa [poolRun] using ih (poolStep s e) (poolInv_step s e hinv h1) h2

theorem seeded_nodup : seeded.Nodup := by
  unfold seeded
  rw [List.nodup_reverse]
  exact (List.nodup_range 100).map (fun a b h => Int.ofNat.inj h)

/-- As long as no node starts on an exhausted pool, the identity pool keeps its
invariant from the absent pool on: no two live connections hold the same ID,
and once the pool is seeded every seeded ID is in the pool exactly once or held
by exactly one live connection. -/
theorem pool_invariant_unless_exhausted (evs : List PoolEvent)
    (hsafe : startsSafe PoolState.init evs) :
    liveDistinct (poolRun PoolState.init evs) ∧
      ((poolRun PoolState.init evs).rdb.LoginBucket ≠ [] ∨ (poolRun PoolState.init evs).live ≠ [] →
        ∀ i ∈ seeded, idAccounted (poolRun PoolState.init evs) i) := by
  have hinv : poolInv (poolRun PoolState.init evs) :=
    poolInv_run evs PoolState.init (Or.inl ⟨rfl, rfl⟩) hsafe
  rcases hinv with ⟨hb, hl⟩ | hperm
  · refine ⟨by simp [liveDistinct, hl], ?_⟩
    intro h
    rcases h with h | h
    · exact absurd hb h
    · exact absurd hl h
  · have hnd : ((poolRun PoolState.init evs).rdb.LoginBucket ++ (poolRun PoolState.init evs).live).Nodup :=
      hperm.nodup_iff.mpr seeded_nodup
    refine ⟨(List.nodup_append.mp hnd).2.1, ?_⟩
    intro _ i hi
    have hcount := hperm.count_eq i
    rw [List.count_append, List.count_eq_one_of_mem seeded_nodup hi] at hcount
    exact hcount

set_option maxRecDepth 100000 in
/-- C1 (the code at the failing trace): one node starts, a hundred clients
connect, a second node starts and one more client connects.  The second
`RedisMakeBucket` finds the emptied LoginBucket key absent and seeds it again,
so the last client is given ID 0 while the first still holds it: two live
connections share an ID, and ID 0 is held twice. -/
theorem RedisMakeBucket_reseeds_exhausted_pool :
    ¬ liveDistinct (poolRun PoolState.init exhaustThenRestart) ∧
      (poolRun PoolState.init exhaustThenRestart).live.count 0 = 2 ∧
      ¬ idAccounted (poolRun PoolState.init exhaustThenRestart) 0 := by
  decide

theorem SAdd_LoginBucket (r : Redis) (key member : String) :
    (r.SAdd key member).LoginBucket = r.LoginBucket := by
  unfold Redis.SAdd
  split
  · rfl
  · split <;> rfl

theorem SRem_LoginBucket (r : Redis) (key member : String) :
    (r.SRem key member).LoginBucket = r.LoginBucket := by
  unfold Redis.SRem
  split
  · rfl
  · simp only
    split <;> rfl

/-- The `connect` event is what `ChatHome` does to the pool on its way in: the
`RPop`, and nothing else touches LoginBucket. -/
theorem ChatHome_enter_acquires (J : Json) (w : World) (req : Request) (live : List Int) :
    (ChatHome_enter J w req).w.RDB.LoginBucket
      = (poolStep { rdb := w.RDB, live := live } PoolEvent.connect).rdb.LoginBucket := by
  unfold ChatHome_enter poolStep
  simp only
  cases hpop : w.RDB.RPop with
  | none => rfl
  | some p =>
    obtain ⟨ID, rdb⟩ := p
    cases hup : req.Upgrade with
    | none => rfl
    | some conn =>
      simp only
      rw [SAdd_LoginBucket]
      rfl

/-- The `disconnect` event is what the return of a served `ChatHome` does to
the pool: the deferred `LPush` of the ID it holds, and nothing else touches
LoginBucket. -/
theorem ChatHome_return_releases (J : Json) (w : World) (req : Request) (ID : Int)
    (rdb : Redis) (conn : Nat) (hpop : w.RDB.RPop = some (ID, rdb))
    (hup : req.Upgrade = some conn) :
    (ChatHome_return (ChatHome_enter J w req)).1.RDB.LoginBucket
      = ID :: (ChatHome_enter J w req).w.RDB.LoginBucket := by
  simp only [ChatHome_return, ChatHome_enter, hpop, hup, runDefers, runDefer, Redis.LPush,
    Redis.Del, SRem_LoginBucket]

/-! ### Reconciliation -/

theorem connected_mapSet (cn : List (String × Bool)) (s x : String) :
    connected (mapSet cn s true) x = true ↔ x = s ∨ connected cn x = true := by
  unfold connected
  by_cases h : x = s
  · subst h
    simp [mapGet_mapSet_self]
  · simp [mapGet_mapSet_ne _ _ _ _ h, h]

theorem open_of_some (w : World) (cn : List (String × Bool)) (es : List Effect) (s : String)
    (mq : RabbitMQ) (h : mapGet w.RabbieMqPoll s = some mq) :
    PullAndConnRabbieMq_open (w, cn, es) s = (w, mapSet cn s true, es) := by
  simp only [PullAndConnRabbieMq_open, h]

theorem open_of_none (w : World) (cn : List (String × Bool)) (es : List Effect) (s : String)
    (h : mapGet w.RabbieMqPoll s = none) :
    PullAndConnRabbieMq_open (w, cn, es) s
      = ({ w with RabbieMqPoll := mapSet w.RabbieMqPoll s (NewRabbitMQSimple w.fresh s),
                  fresh := w.fresh + 1 },
          mapSet cn s true, es ++ [Effect.NewRabbitMQSimple s (NewRabbitMQSimple w.fresh s)]) := by
  simp only [PullAndConnRabbieMq_open, h]

theorem open_get_some (w : World) (cn : List (String × Bool)) (es : List Effect) (s x : String)
    (mq : RabbitMQ) (h : mapGet w.RabbieMqPoll x = some mq) :
    mapGet (PullAndConnRabbieMq_open (w, cn, es) s).1.RabbieMqPoll x = some mq := by
  cases hs : mapGet w.RabbieMqPoll s with
  | some mq' =>
    rw [open_of_some w cn es s mq' hs]
    exact h
  | none =>
    have hne : x ≠ s := by
      intro e
      rw [e, hs] at h
      cases h
    rw [open_of_none w cn es s hs]
    simp only
    rw [mapGet_mapSet_ne _ _ _ _ hne]
    exact h

theorem open_keys (w : World) (cn : List (String × Bool)) (es : List Effect) (s x : String) :
    x ∈ mapKeys (PullAndConnRabbieMq_open (w, cn, es) s).1.RabbieMqPoll
      ↔ x = s ∨ x ∈ mapKeys w.RabbieMqPoll := by
  cases hs : mapGet w.RabbieMqPoll s with
  | some mq =>
    have hmem : s ∈ mapKeys w.RabbieMqPoll := by
      rw [← mapGet_isSome_iff, hs]
      rfl
    rw [open_of_some w cn es s mq hs]
    constructor
    · intro h
      exact Or.inr h
    · rintro (h | h)
      · rw [h]
        exact hmem
      · exact h
  | none =>
    rw [open_of_none w cn es s hs]
    simp only
    rw [mapKeys_mapSet]

theorem open_connected (w : World) (cn : List (String × Bool)) (es : List Effect) (s x : String) :
    connected (PullAndConnRabbieMq_open (w, cn, es) s).2.1 x = true
      ↔ x = s ∨ connected cn x = true := by
  cases hs : mapGet w.RabbieMqPoll s with
  | some mq =>
    rw [open_of_some w cn es s mq hs]
    exact connected_mapSet cn s x
  | none =>
    rw [open_of_none w cn es s hs]
    exact connected_mapSet cn s x

theorem open_effects (w : World) (cn : List (String × Bool)) (es : List Effect) (s : String)
    (e : Effect) :
    e ∈ (PullAndConnRabbieMq_open (w, cn, es) s).2.2
      ↔ e ∈ es ∨ (mapGet w.RabbieMqPoll s = none ∧
          e = Effect.NewRabbitMQSimple s (NewRabbitMQSimple w.fresh s)) := by
  cases hs : mapGet w.RabbieMqPoll s with
  | some mq =>
    rw [open_of_some w cn es s mq hs]
    simp
  | none =>
    rw [open_of_none w cn es s hs]
    simp

theorem open_new_get (w : World) (cn : List (String × Bool)) (es : List Effect) (s : String)
    (h : mapGet w.RabbieMqPoll s = none) :
    mapGet (PullAndConnRabbieMq_open (w, cn, es) s).1.RabbieMqPoll s
      = some (NewRabbitMQSimple w.fresh s) := by
  rw [open_of_none w cn es s h]
  exact mapGet_mapSet_self _ _ _

theorem open_RDB (w : World) (cn : List (String × Bool)) (es : List Effect) (s : String) :
    (PullAndConnRabbieMq_open (w, cn, es) s).1.RDB = w.RDB ∧
      (PullAndConnRabbieMq_open (w, cn, es) s).1.ConnectionPool = w.ConnectionPool ∧
      (PullAndConnRabbieMq_open (w, cn, es) s).1.OnlyMark = w.OnlyMark := by
  cases hs : mapGet w.RabbieMqPoll s with
  | some mq =>
    rw [open_of_some w cn es s mq hs]
    exact ⟨rfl, rfl, rfl⟩
  | none =>
    rw [open_of_none w cn es s hs]
    exact ⟨rfl, rfl, rfl⟩

/-- What the first loop of `PullAndConnRabbieMq` leaves, over any list of marks. -/
theorem open_fold (l : List String) (w : World) (cn : List (String × Bool)) (es : List Effect) :
    (∀ x mq, mapGet w.RabbieMqPoll x = some mq →
        mapGet (l.foldl PullAndConnRabbieMq_open (w, cn, es)).1.RabbieMqPoll x = some mq) ∧
    (∀ x, x ∈ mapKeys (l.foldl PullAndConnRabbieMq_open (w, cn, es)).1.RabbieMqPoll
        ↔ x ∈ l ∨ x ∈ mapKeys w.RabbieMqPoll) ∧
    (∀ x, connected (l.foldl PullAndConnRabbieMq_open (w, cn, es)).2.1 x = true
        ↔ x ∈ l ∨ connected cn x = true) ∧
    (∀ e, e ∈ es → e ∈ (l.foldl PullAndConnRabbieMq_open (w, cn, es)).2.2) ∧
    (∀ x, x ∈ l → mapGet w.RabbieMqPoll x = none →
        ∃ mq, Effect.NewRabbitMQSimple x mq ∈ (l.foldl PullAndConnRabbieMq_open (w, cn, es)).2.2 ∧
          mapGet (l.foldl PullAndConnRabbieMq_open (w, cn, es)).1.RabbieMqPoll x = some mq) ∧
    (∀ e, e ∈ (l.foldl PullAndConnRabbieMq_open (w, cn, es)).2.2 →
        e ∈ es ∨ ∃ x mq, e = Effect.NewRabbitMQSimple x mq ∧ x ∈ l ∧
          mapGet w.RabbieMqPoll x = none) ∧
    (l.foldl PullAndConnRabbieMq_open (w, cn, es)).1.RDB = w.RDB ∧
    (l.foldl PullAndConnRabbieMq_open (w, cn, es)).1.ConnectionPool = w.ConnectionPool ∧
    (l.foldl PullAndConnRabbieMq_open (w, cn, es)).1.OnlyMark = w.OnlyMark := by
  induction l generalizing w cn es with
  | nil =>
    simp only [List.foldl_nil, List.not_mem_nil, false_or, false_implies, implies_true, and_true,
      true_and, imp_self]
    intro e he
    exact Or.inl he
  | cons a rest ih =>
    rw [List.foldl_cons]
    have hget := open_get_some w cn es a
    have hkeys := open_keys w cn es a
    have hconn := open_connected w cn es a
    have heff := open_effects w cn es a
    have hnew := open_new_get w cn es a
    have hrdb := open_RDB w cn es a
    rcases hstep : PullAndConnRabbieMq_open (w, cn, es) a with ⟨w1, cn1, es1⟩
    rw [hstep] at hget hkeys hconn heff hnew hrdb
    simp only at hget hkeys hconn heff hnew hrdb
    obtain ⟨i1, i2, i3, i4, i5, i6, i7, i8, i9⟩ := ih w1 cn1 es1
    refine ⟨?_, ?_, ?_, ?_, ?_, ?_, ?_, ?_, ?_⟩
    · intro x mq h
      exact i1 x mq (hget x mq h)
    · intro x
      rw [i2, hkeys, List.mem_cons]
      tauto
    · intro x
      rw [i3, hconn, List.mem_cons]
      tauto
    · intro e he
      exact i4 e ((heff e).mpr (Or.inl he))
    · intro x hx hnone
      by_cases hxa : x = a
      · subst hxa
        refine ⟨NewRabbitMQSimple w.fresh x, i4 _ ((heff _).mpr (Or.inr ⟨hnone, rfl⟩)), ?_⟩
        exact i1 x _ (hnew hnone)
      · have hx' : x ∈ rest := by
          rcases List.mem_cons.mp hx with h | h
          · exact absurd h hxa
          · exact h
        have hnone1 : mapGet w1.RabbieMqPoll x = none := by
          rw [mapGet_eq_none_iff, hkeys]
          rw [mapGet_eq_none_iff] at hnone
          tauto
        exact i5 x hx' hnone1
    · intro e he
      rcases i6 e he with h | ⟨x, mq, hx, hmem, hnone⟩
      · rcases (heff e).mp h with h1 | ⟨h1, h2⟩
        · exact Or.inl h1
        · exact Or.inr ⟨a, _, h2, List.mem_cons_self _ _, h1⟩
      · refine Or.inr ⟨x, mq, hx, List.mem_cons_of_mem _ hmem, ?_⟩
        rw [mapGet_eq_none_iff] at hnone ⊢
        rw [hkeys] at hnone
        tauto
    · rw [i7]
      exact hrdb.1
    · rw [i8]
      exact hrdb.2.1
    · rw [i9]
      exact hrdb.2.2

theorem close_of_none (cn : List (String × Bool)) (w : World) (es : List Effect) (s : String)
    (h : mapGet w.RabbieMqPoll s = none) :
    PullAndConnRabbieMq_close cn (w, es) s = (w, es) := by
  simp only [PullAndConnRabbieMq_close, h]

theorem close_of_connected (cn : List (String × Bool)) (w : World) (es : List Effect)
    (s : String) (mq : RabbitMQ) (h : mapGet w.RabbieMqPoll s = some mq)
    (hc : connected cn s = true) :
    PullAndConnRabbieMq_close cn (w, es) s = (w, es) := by
  unfold connected at hc
  simp only [PullAndConnRabbieMq_close, h, hc, if_true]

theorem close_of_stale (cn : List (String × Bool)) (w : World) (es : List Effect)
    (s : String) (mq : RabbitMQ) (h : mapGet w.RabbieMqPoll s = some mq)
    (hc : connected cn s = false) :
    PullAndConnRabbieMq_close cn (w, es) s
      = ({ w with RabbieMqPoll := mapDelete w.RabbieMqPoll s }, es ++ [Effect.Destory mq]) := by
  unfold connected at hc
  simp only [PullAndConnRabbieMq_close, h, hc, Bool.false_eq_true, if_false]

theorem connected_cases (cn : List (String × Bool)) (s : String) :
    connected cn s = true ∨ connected cn s = false := by
  cases connected cn s <;> simp

theorem close_get (cn : List (String × Bool)) (w : World) (es : List Effect) (s x : String) :
    mapGet (PullAndConnRabbieMq_close cn (w, es) s).1.RabbieMqPoll x
      = if x = s ∧ connected cn x = false then none else mapGet w.RabbieMqPoll x := by
  cases hs : mapGet w.RabbieMqPoll s with
  | none =>
    rw [close_of_none cn w es s hs]
    by_cases hx : x = s
    · subst hx
      simp [hs]
    · simp [hx]
  | some mq =>
    rcases connected_cases cn s with hc | hc
    · rw [close_of_connected cn w es s mq hs hc]
      by_cases hx : x = s
      · subst hx
        simp [hc]
      · simp [hx]
    · rw [close_of_stale cn w es s mq hs hc]
      by_cases hx : x = s
      · subst hx
        have hnone : mapGet (mapDelete w.RabbieMqPoll x) x = none := by
          rw [mapGet_eq_none_iff, mapKeys_mapDelete]
          simp
        simp [hc, hnone]
      · simp [hx, mapGet_mapDelete_ne _ _ _ hx]

theorem close_effects (cn : List (String × Bool)) (w : World) (es : List Effect) (s : String)
    (e : Effect) :
    e ∈ (PullAndConnRabbieMq_close cn (w, es) s).2
      ↔ e ∈ es ∨ ∃ mq, mapGet w.RabbieMqPoll s = some mq ∧ connected cn s = false ∧
          e = Effect.Destory mq := by
  cases hs : mapGet w.RabbieMqPoll s with
  | none =>
    rw [close_of_none cn w es s hs]
    simp
  | some mq =>
    rcases connected_cases cn s with hc | hc
    · rw [close_of_connected cn w es s mq hs hc]
      simp [hc]
    · rw [close_of_stale cn w es s mq hs hc]
      simp [hc]

theorem close_RDB (cn : List (String × Bool)) (w : World) (es : List Effect) (s : String) :
    (PullAndConnRabbieMq_close cn (w, es) s).1.RDB = w.RDB ∧
      (PullAndConnRabbieMq_close cn (w, es) s).1.ConnectionPool = w.ConnectionPool ∧
      (PullAndConnRabbieMq_close cn (w, es) s).1.OnlyMark = w.OnlyMark := by
  cases hs : mapGet w.RabbieMqPoll s with
  | none =>
    rw [close_of_none cn w es s hs]
    exact ⟨rfl, rfl, rfl⟩
  | some mq =>
    rcases connected_cases cn s with hc | hc
    · rw [close_of_connected cn w es s mq hs hc]
      exact ⟨rfl, rfl, rfl⟩
    · rw [close_of_stale cn w es s mq hs hc]
      exact ⟨rfl, rfl, rfl⟩

/-- What the second loop of `PullAndConnRabbieMq` leaves, over any list of keys. -/
theorem close_fold (cn : List (String × Bool)) (l : List String) (w : World) (es : List Effect) :
    (∀ x, mapGet (l.foldl (PullAndConnRabbieMq_close cn) (w, es)).1.RabbieMqPoll x
        = if x ∈ l ∧ connected cn x = false then none else mapGet w.RabbieMqPoll x) ∧
    (∀ e, e ∈ es → e ∈ (l.foldl (PullAndConnRabbieMq_close cn) (w, es)).2) ∧
    (∀ x mq, x ∈ l → connected cn x = false → mapGet w.RabbieMqPoll x = some mq →
        Effect.Destory mq ∈ (l.foldl (PullAndConnRabbieMq_close cn) (w, es)).2) ∧
    (∀ e, e ∈ (l.foldl (PullAndConnRabbieMq_close cn) (w, es)).2 →
        e ∈ es ∨ ∃ x mq, e = Effect.Destory mq ∧ mapGet w.RabbieMqPoll x = some mq ∧
          connected cn x = false) ∧
    (l.foldl (PullAndConnRabbieMq_close cn) (w, es)).1.RDB = w.RDB ∧
    (l.foldl (PullAndConnRabbieMq_close cn) (w, es)).1.ConnectionPool = w.ConnectionPool ∧
    (l.foldl (PullAndConnRabbieMq_close cn) (w, es)).1.OnlyMark = w.OnlyMark := by
  induction l generalizing w es with
  | nil =>
    simp only [List.foldl_nil, List.not_mem_nil, false_and, if_false, false_implies, implies_true,
      and_true, true_and, imp_self]
    intro e he
    exact Or.inl he
  | cons a rest ih =>
    rw [List.foldl_cons]
    have hget := close_get cn w es a
    have heff := close_effects cn w es a
    have hrdb := close_RDB cn w es a
    rcases hstep : PullAndConnRabbieMq_close cn (w, es) a with ⟨w1, es1⟩
    rw [hstep] at hget heff hrdb
    simp only at hget heff hrdb
    obtain ⟨i1, i2, i3, i4, i5, i6, i7⟩ := ih w1 es1
    refine ⟨?_, ?_, ?_, ?_, ?_, ?_, ?_⟩
    · intro x
      rw [i1, hget]
      rcases connected_cases cn x with hc | hc
      · simp [hc]
      · by_cases hxa : x = a
        · subst hxa
          simp [hc]
        · simp [hxa, hc]
    · intro e he
      exact i2 e ((heff e).mpr (Or.inl he))
    · intro x mq hx hc hsome
      by_cases hxa : x = a
      · subst hxa
        exact i2 _ ((heff _).mpr (Or.inr ⟨mq, hsome, hc, rfl⟩))
      · have hx' : x ∈ rest := by
          rcases List.mem_cons.mp hx with h | h
          · exact absurd h hxa
          · exact h
        refine i3 x mq hx' hc ?_
        rw [hget]
        simp [hxa, hsome]
    · intro e he
      rcases i4 e he with h | ⟨x, mq, hx, hsome, hc⟩
      · rcases (heff e).mp h with h1 | ⟨mq, h1, h2, h3⟩
        · exact Or.inl h1
        · exact Or.inr ⟨a, mq, h3, h1, h2⟩
      · refine Or.inr ⟨x, mq, hx, ?_, hc⟩
        rw [hget] at hsome
        by_cases hxa : x = a ∧ connected cn x = false
        · rw [if_pos hxa] at hsome
          cases hsome
        · rw [if_neg hxa] at hsome
          exact hsome
    · rw [i5]
      exact hrdb.1
    · rw [i6]
      exact hrdb.2.1
    · rw [i7]
      exact hrdb.2.2

theorem PullAndConnRabbieMq_eq (w : World) :
    PullAndConnRabbieMq w
      = (mapKeys ((mapKeys w.RDB.HGetAllNodes).foldl PullAndConnRabbieMq_open
            (w, [], [])).1.RabbieMqPoll).foldl
          (PullAndConnRabbieMq_close
            ((mapKeys w.RDB.HGetAllNodes).foldl PullAndConnRabbieMq_open (w, [], [])).2.1)
          (((mapKeys w.RDB.HGetAllNodes).foldl PullAndConnRabbieMq_open (w, [], [])).1,
            ((mapKeys w.RDB.HGetAllNodes).foldl PullAndConnRabbieMq_open (w, [], [])).2.2) := by
  rfl

theorem connected_nil (x : String) : connected [] x = false := by
  simp [connected, mapGet]

/-- The channel map after one pass, entry by entry: a live node keeps the
handle it had or gets the one opened for it, any other key is gone. -/
theorem PullAndConnRabbieMq_get (w : World) (x : String) :
    (x ∈ mapKeys w.RDB.HGetAllNodes →
      (∀ mq, mapGet w.RabbieMqPoll x = some mq →
        mapGet (PullAndConnRabbieMq w).1.RabbieMqPoll x = some mq) ∧
      (mapGet (PullAndConnRabbieMq w).1.RabbieMqPoll x).isSome = true) ∧
    (x ∉ mapKeys w.RDB.HGetAllNodes →
      mapGet (PullAndConnRabbieMq w).1.RabbieMqPoll x = none) := by
  obtain ⟨o1, o2, o3, _, _, _, _, _, _⟩ :=
    open_fold (mapKeys w.RDB.HGetAllNodes) w [] []
  rw [PullAndConnRabbieMq_eq]
  generalize hF : (mapKeys w.RDB.HGetAllNodes).foldl PullAndConnRabbieMq_open (w, [], []) = F at *
  obtain ⟨c1, _, _, _, _, _, _⟩ := close_fold F.2.1 (mapKeys F.1.RabbieMqPoll) F.1 F.2.2
  have hconn : ∀ y, connected F.2.1 y = true ↔ y ∈ mapKeys w.RDB.HGetAllNodes := by
    intro y
    rw [o3 y]
    simp [connected_nil]
  constructor
  · intro hx
    have hc : connected F.2.1 x = true := (hconn x).mpr hx
    have hget : mapGet (List.foldl (PullAndConnRabbieMq_close F.2.1) (F.1, F.2.2)
        (mapKeys F.1.RabbieMqPoll)).1.RabbieMqPoll x = mapGet F.1.RabbieMqPoll x := by
      rw [c1 x]
      simp [hc]
    rw [hget]
    refine ⟨fun mq h => o1 x mq h, ?_⟩
    rw [mapGet_isSome_iff, o2 x]
    exact Or.inl hx
  · intro hx
    have hc : connected F.2.1 x = false := by
      rcases connected_cases F.2.1 x with h | h
      · exact absurd ((hconn x).mp h) hx
      · exact h
    rw [c1 x]
    by_cases hk : x ∈ mapKeys F.1.RabbieMqPoll
    · simp [hk, hc]
    · have hnone : mapGet F.1.RabbieMqPoll x = none := (mapGet_eq_none_iff _ _).mpr hk
      simp [hk, hnone]

/-- The effects of one pass: a channel is opened for every live node that had
none and for nothing else; the handle of every key that is not live is
destroyed and nothing else is. -/
theorem PullAndConnRabbieMq_effects (w : World) :
    (∀ s, s ∈ mapKeys w.RDB.HGetAllNodes → mapGet w.RabbieMqPoll s = none →
      ∃ mq, Effect.NewRabbitMQSimple s mq ∈ (PullAndConnRabbieMq w).2 ∧
        mapGet (PullAndConnRabbieMq w).1.RabbieMqPoll s = some mq) ∧
    (∀ s mq, mapGet w.RabbieMqPoll s = some mq → s ∉ mapKeys w.RDB.HGetAllNodes →
      Effect.Destory mq ∈ (PullAndConnRabbieMq w).2) ∧
    (∀ e, e ∈ (PullAndConnRabbieMq w).2 →
      (∃ s mq, e = Effect.NewRabbitMQSimple s mq ∧ s ∈ mapKeys w.RDB.HGetAllNodes ∧
        mapGet w.RabbieMqPoll s = none) ∨
      (∃ s mq, e = Effect.Destory mq ∧ mapGet w.RabbieMqPoll s = some mq ∧
        s ∉ mapKeys w.RDB.HGetAllNodes)) := by
  obtain ⟨o1, o2, o3, _, o5, o6, _, _, _⟩ :=
    open_fold (mapKeys w.RDB.HGetAllNodes) w [] []
  have hget := fun x => (PullAndConnRabbieMq_get w x).1
  rw [PullAndConnRabbieMq_eq] at hget ⊢
  generalize hF : (mapKeys w.RDB.HGetAllNodes).foldl PullAndConnRabbieMq_open (w, [], []) = F at *
  obtain ⟨c1, c2, c3, c4, _, _, _⟩ := close_fold F.2.1 (mapKeys F.1.RabbieMqPoll) F.1 F.2.2
  have hconn : ∀ y, connected F.2.1 y = true ↔ y ∈ mapKeys w.RDB.HGetAllNodes := by
    intro y
    rw [o3 y]
    simp [connected_nil]
  refine ⟨?_, ?_, ?_⟩
  · intro s hs hnone
    obtain ⟨mq, hmem, hmq⟩ := o5 s hs hnone
    refine ⟨mq, c2 _ hmem, ?_⟩
    have hc : connected F.2.1 s = true := (hconn s).mpr hs
    rw [c1 s]
    simp [hc, hmq]
  · intro s mq hsome hs
    have hc : connected F.2.1 s = false := by
      rcases connected_cases F.2.1 s with h | h
      · exact absurd ((hconn s).mp h) hs
      · exact h
    have hk : s ∈ mapKeys F.1.RabbieMqPoll := by
      rw [← mapGet_isSome_iff, o1 s mq hsome]
      rfl
    exact c3 s mq hk hc (o1 s mq hsome)
  · intro e he
    rcases c4 e he with h | ⟨x, mq, hx, hsome, hc⟩
    · rcases o6 e h with h0 | ⟨x, mq, hx, hmem, hnone⟩
      · cases h0
      · exact Or.inl ⟨x, mq, hx, hmem, hnone⟩
    · have hxn : x ∉ mapKeys w.RDB.HGetAllNodes := by
        intro hin
        rw [(hconn x).mpr hin] at hc
        cases hc
      have hk : x ∈ mapKeys w.RabbieMqPoll := by
        have h1 : x ∈ mapKeys F.1.RabbieMqPoll := by
          rw [← mapGet_isSome_iff, hsome]
          rfl
        rcases (o2 x).mp h1 with h2 | h2
        · exact absurd h2 hxn
        · exact h2
      rw [← mapGet_isSome_iff] at hk
      cases hold : mapGet w.RabbieMqPoll x with
      | none => simp [hold] at hk
      | some mq0 =>
        have := o1 x mq0 hold
        rw [hsome] at this
        cases this
        exact Or.inr ⟨x, mq, hx, hold, hxn⟩

/-- C2: after one pass of `PullAndConnRabbieMq`, for every initial channel map
and every Nodes directory, the key set of `RabbieMqPoll` is exactly the set of
live nodes; a channel was opened for each live node that had none; the channel
of every key that is not live was destroyed and removed; and the channel of a
node that was open and is still live is the same handle, not opened again. -/
theorem PullAndConnRabbieMq_reconciles (w : World) :
    (∀ s, s ∈ mapKeys (PullAndConnRabbieMq w).1.RabbieMqPoll ↔ s ∈ mapKeys w.RDB.HGetAllNodes) ∧
    (∀ s, s ∈ mapKeys w.RDB.HGetAllNodes → s ∉ mapKeys w.RabbieMqPoll →
      ∃ mq, Effect.NewRabbitMQSimple s mq ∈ (PullAndConnRabbieMq w).2 ∧
        mapGet (PullAndConnRabbieMq w).1.RabbieMqPoll s = some mq) ∧
    (∀ s mq, mapGet w.RabbieMqPoll s = some mq → s ∉ mapKeys w.RDB.HGetAllNodes →
      Effect.Destory mq ∈ (PullAndConnRabbieMq w).2 ∧
        s ∉ mapKeys (PullAndConnRabbieMq w).1.RabbieMqPoll) ∧
    (∀ s mq, mapGet w.RabbieMqPoll s = some mq → s ∈ mapKeys w.RDB.HGetAllNodes →
      mapGet (PullAndConnRabbieMq w).1.RabbieMqPoll s = some mq ∧
        ∀ mq', Effect.NewRabbitMQSimple s mq' ∉ (PullAndConnRabbieMq w).2) := by
  obtain ⟨e1, e2, e3⟩ := PullAndConnRabbieMq_effects w
  have hkeys : ∀ s, s ∈ mapKeys (PullAndConnRabbieMq w).1.RabbieMqPoll
      ↔ s ∈ mapKeys w.RDB.HGetAllNodes := by
    intro s
    rw [← mapGet_isSome_iff]
    by_cases hs : s ∈ mapKeys w.RDB.HGetAllNodes
    · simp [hs, ((PullAndConnRabbieMq_get w s).1 hs).2]
    · simp [hs, (PullAndConnRabbieMq_get w s).2 hs]
  refine ⟨hkeys, ?_, ?_, ?_⟩
  · intro s hs hno
    exact e1 s hs ((mapGet_eq_none_iff _ _).mpr hno)
  · intro s mq hsome hs
    refine ⟨e2 s mq hsome hs, ?_⟩
    rw [hkeys]
    exact hs
  · intro s mq hsome hs
    refine ⟨((PullAndConnRabbieMq_get w s).1 hs).1 mq hsome, ?_⟩
    intro mq' hmem
    rcases e3 _ hmem with ⟨s', mq'', heq, _, hnone⟩ | ⟨s', mq'', heq, _, _⟩
    · cases heq
      rw [hsome] at hnone
      cases hnone
    · cases heq

theorem PullAndConnRabbieMq_frame (w : World) :
    (PullAndConnRabbieMq w).1.RDB = w.RDB ∧
      (PullAndConnRabbieMq w).1.ConnectionPool = w.ConnectionPool ∧
      (PullAndConnRabbieMq w).1.OnlyMark = w.OnlyMark := by
  obtain ⟨_, _, _, _, _, _, o7, o8, o9⟩ :=
    open_fold (mapKeys w.RDB.HGetAllNodes) w [] []
  rw [PullAndConnRabbieMq_eq]
  generalize hF : (mapKeys w.RDB.HGetAllNodes).foldl PullAndConnRabbieMq_open (w, [], []) = F at *
  obtain ⟨_, _, _, _, c5, c6, c7⟩ := close_fold F.2.1 (mapKeys F.1.RabbieMqPoll) F.1 F.2.2
  exact ⟨c5.trans o7, c6.trans o8, c7.trans o9⟩

/-! ### The exit signal -/

theorem exitInv_init : exitInv ExitState.init := by
  simp [exitInv, ExitState.init]

theorem exitInv_step (s : ExitState) (e : ExitEvent) (h : exitInv s) :
    exitInv (exitStep s e) := by
  obtain ⟨f, n, r, c, p⟩ := s
  cases e <;> cases f <;> cases r <;> cases c <;>
    simp_all [exitInv, exitStep, ExitFlagDo, CharExit_recv, ChatHome_closeExit]

theorem exitInv_run (evs : List ExitEvent) (s : ExitState) (h : exitInv s) :
    exitInv (exitRun s evs) := by
  induction evs generalizing s with
  | nil => simpa [exitRun] using h
  | cons e rest ih => simpa [exitRun] using ih (exitStep s e) (exitInv_step s e h)

/-- The exit machinery does run to its end: after a read failure, the watcher's
receive and the teardown, one value was sent and `Exit` is closed, and the
later write failure and shutdown broadcast send nothing. -/
theorem exit_trace_example :
    exitRun ExitState.init
        [ExitEvent.readFail, ExitEvent.watcherRecv, ExitEvent.teardown, ExitEvent.dataClosed,
          ExitEvent.shutdown]
      = { ExitFlag := OnceState.done, sends := 1, released := true, closed := true,
          sendOnClosed := false } := by
  decide

/-- C3: for every interleaving of read failure, write failure, closed queue,
shutdown broadcast, watcher receive and teardown on one connection, at most one
value has been sent on `Exit` and no send was executed on `Exit` after the
teardown closed it. -/
theorem exit_sent_at_most_once (evs : List ExitEvent) :
    (exitRun ExitState.init evs).sends ≤ 1 ∧
      (exitRun ExitState.init evs).sendOnClosed = false := by
  obtain ⟨h1, h2, h3, h4⟩ := exitInv_run evs ExitState.init exitInv_init
  refine ⟨?_, h1⟩
  cases hf : (exitRun ExitState.init evs).ExitFlag with
  | idle => rw [(h2 hf).1]; exact Nat.zero_le 1
  | running => rw [(h3 hf).1]
  | done => rw [(h4 hf).1]

/-! ### Teardown -/

/-- C4 (as the code has it): for every connection whose upgrade succeeded, the
effects `ChatHome` performs after the exit watcher returns are exactly, in
this order: remove the ID from the node's membership set; delete the presence
record; remove the ID from `ConnectionPool`; close the socket; close `Data`;
close `Exit`; push the ID back onto LoginBucket; release `ActiveConnWG`. -/
theorem ChatHome_teardown_order (J : Json) (w : World) (req : Request) (ID : Int)
    (rdb : Redis) (conn : Nat) (hpop : w.RDB.RPop = some (ID, rdb))
    (hup : req.Upgrade = some conn) :
    ∃ node, (ChatHome_enter J w req).serving = some (ID, node) ∧ node.Conn = conn ∧
      ChatHome_teardown J w req =
        [Effect.SRem w.OnlyMark (Sprintf_d ID), Effect.RedisDel (Sprintf_d ID),
          Effect.PoolDelete ID, Effect.ConnClose node.Conn, Effect.Close node.Data,
          Effect.Close node.Exit, Effect.LPush ID, Effect.ActiveConnDone] := by
  refine ⟨{ Conn := conn, Data := w.fresh, Exit := w.fresh + 1, ExitFlag := w.fresh + 2 }, ?_, rfl, ?_⟩
  · simp [ChatHome_enter, hpop, hup]
  · simp [ChatHome_teardown, ChatHome_return, ChatHome_enter, hpop, hup, runDefers, runDefer]

/-- C4, at a concrete connection: user 7 connects to the node "a" on socket 40. -/
theorem ChatHome_teardown_order_witness :
    demoWorld.RDB.RPop = some (7, { demoWorld.RDB with LoginBucket := [8] }) ∧
      ∃ node, (ChatHome_enter demoJson demoWorld { Upgrade := some 40 }).serving = some (7, node) ∧
        node.Conn = 40 ∧
        ChatHome_teardown demoJson demoWorld { Upgrade := some 40 } =
          [Effect.SRem demoWorld.OnlyMark (Sprintf_d 7), Effect.RedisDel (Sprintf_d 7),
            Effect.PoolDelete 7, Effect.ConnClose node.Conn, Effect.Close node.Data,
            Effect.Close node.Exit, Effect.LPush 7, Effect.ActiveConnDone] :=
  ⟨by decide,
    ChatHome_teardown_order demoJson demoWorld { Upgrade := some 40 } 7
      { demoWorld.RDB with LoginBucket := [8] } 40 (by decide) rfl⟩

/-- C4 (the order of the specification fails): for user 7 on socket 40 the
teardown trace is not the list of the specification, and that list is not even
a subsequence of the trace, because the registry and presence removals come
before the socket is closed. -/
theorem ChatHome_teardown_not_spec_order :
    ChatHome_teardown demoJson demoWorld { Upgrade := some 40 }
        ≠ specTeardown 7 { Conn := 40, Data := 30, Exit := 31, ExitFlag := 32 } ∧
      ¬ (specTeardown 7 { Conn := 40, Data := 30, Exit := 31, ExitFlag := 32 }).Sublist
          (ChatHome_teardown demoJson demoWorld { Upgrade := some 40 }) := by
  decide

/-! ### The reader -/

theorem publishes_of_reconcile (es : List Effect) (h : ∀ e ∈ es, isReconcile e = true) :
    publishes es = [] ∧ queued es = [] ∧ written es = [] ∧ exitCalls es = [] := by
  induction es with
  | nil => simp [publishes, queued, written, exitCalls]
  | cons e rest ih =>
    have he := h e (List.mem_cons_self _ _)
    obtain ⟨i1, i2, i3, i4⟩ := ih (fun x hx => h x (List.mem_cons_of_mem _ hx))
    unfold publishes queued written exitCalls at *
    cases e <;> simp_all [isReconcile]

theorem publishes_append (a b : List Effect) : publishes (a ++ b) = publishes a ++ publishes b := by
  simp [publishes, List.filterMap_append]

theorem queued_append (a b : List Effect) : queued (a ++ b) = queued a ++ queued b := by
  simp [queued, List.filterMap_append]

theorem written_append (a b : List Effect) : written (a ++ b) = written a ++ written b := by
  simp [written, List.filterMap_append]

theorem exitCalls_append (a b : List Effect) : exitCalls (a ++ b) = exitCalls a ++ exitCalls b := by
  simp [exitCalls, List.filterMap_append]

theorem PullAndConnRabbieMq_isReconcile (w : World) :
    ∀ e ∈ (PullAndConnRabbieMq w).2, isReconcile e = true := by
  intro e he
  rcases (PullAndConnRabbieMq_effects w).2.2 e he with ⟨s, mq, heq, _⟩ | ⟨s, mq, heq, _⟩
  · rw [heq]
    rfl
  · rw [heq]
    rfl

theorem CharRead_ensure_of_some (w : World) (mark : String) (mq : RabbitMQ)
    (h : mapGet w.RabbieMqPoll mark = some mq) : CharRead_ensure w mark = (w, []) := by
  simp only [CharRead_ensure, h]

theorem CharRead_ensure_of_none (w : World) (mark : String)
    (h : mapGet w.RabbieMqPoll mark = none) :
    CharRead_ensure w mark = PullAndConnRabbieMq w := by
  simp only [CharRead_ensure, h]

/-- The look-up and on-demand repair before a publish: it only opens and
destroys channels, leaves the store and the registry alone, and leaves a
channel for the mark when the mark had one or is in the Nodes directory. -/
theorem CharRead_ensure_spec (w : World) (mark : String) :
    (∀ e ∈ (CharRead_ensure w mark).2, isReconcile e = true) ∧
    (CharRead_ensure w mark).1.RDB = w.RDB ∧
    (CharRead_ensure w mark).1.ConnectionPool = w.ConnectionPool ∧
    (CharRead_ensure w mark).1.OnlyMark = w.OnlyMark ∧
    (mark ∈ mapKeys w.RabbieMqPoll ∨ mark ∈ mapKeys w.RDB.HGetAllNodes →
      (mapGet (CharRead_ensure w mark).1.RabbieMqPoll mark).isSome = true) ∧
    (mark ∈ mapKeys w.RabbieMqPoll → CharRead_ensure w mark = (w, [])) := by
  cases hget : mapGet w.RabbieMqPoll mark with
  | some mq =>
    rw [CharRead_ensure_of_some w mark mq hget]
    refine ⟨?_, rfl, rfl, rfl, ?_, fun _ => rfl⟩
    · intro e he
      cases he
    · intro _
      show (mapGet w.RabbieMqPoll mark).isSome = true
      rw [hget]
      rfl
  | none =>
    rw [CharRead_ensure_of_none w mark hget]
    have hno : mark ∉ mapKeys w.RabbieMqPoll := (mapGet_eq_none_iff _ _).mp hget
    obtain ⟨f1, f2, f3⟩ := PullAndConnRabbieMq_frame w
    refine ⟨PullAndConnRabbieMq_isReconcile w, f1, f2, f3, ?_, fun h => absurd h hno⟩
    rintro (h | h)
    · exact absurd h hno
    · exact ((PullAndConnRabbieMq_get w mark).1 h).2

/-- The `group` loop over marks of the Nodes directory: one publish of `data`
per mark, in order, nothing queued or written, and the loop ends normally. -/
theorem CharRead_group_spec (data : Bytes) (l : List String) (w : World)
    (hl : ∀ x ∈ l, x ∈ mapKeys w.RDB.HGetAllNodes) :
    publishes (CharRead_group data w l).2.1 = l.map (fun mark => (mark, data)) ∧
    queued (CharRead_group data w l).2.1 = [] ∧
    written (CharRead_group data w l).2.1 = [] ∧
    exitCalls (CharRead_group data w l).2.1 = [] ∧
    (CharRead_group data w l).2.2 = Ctl.next ∧
    (CharRead_group data w l).1.RDB = w.RDB ∧
    (CharRead_group data w l).1.ConnectionPool = w.ConnectionPool := by
  induction l generalizing w with
  | nil => simp [CharRead_group, publishes, queued, written, exitCalls]
  | cons mark rest ih =>
    obtain ⟨e1, e2, e3, _, e5, _⟩ := CharRead_ensure_spec w mark
    have hsome := e5 (Or.inr (hl mark (List.mem_cons_self _ _)))
    obtain ⟨p1, p2, p3, p4⟩ := publishes_of_reconcile _ e1
    rcases hens : CharRead_ensure w mark with ⟨w1, es1⟩
    rw [hens] at e2 e3 hsome p1 p2 p3 p4
    simp only at e2 e3 hsome p1 p2 p3 p4
    cases hget : mapGet w1.RabbieMqPoll mark with
    | none => simp [hget] at hsome
    | some mq =>
      have hl1 : ∀ x ∈ rest, x ∈ mapKeys w1.RDB.HGetAllNodes := by
        intro x hx
        rw [e2]
        exact hl x (List.mem_cons_of_mem _ hx)
      obtain ⟨i1, i2, i3, i4, i5, i6, i7⟩ := ih w1 hl1
      rcases hrest : CharRead_group data w1 rest with ⟨w2, es2, c⟩
      rw [hrest] at i1 i2 i3 i4 i5 i6 i7
      simp only at i1 i2 i3 i4 i5 i6 i7
      simp only [CharRead_group, hens, hget, hrest]
      refine ⟨?_, ?_, ?_, ?_, i5, i6.trans e2, i7.trans e3⟩
      · rw [publishes_append, publishes_append, p1, i1]
        simp [publishes]
      · rw [queued_append, queued_append, p2, i2]
        simp [queued]
      · rw [written_append, written_append, p3, i3]
        simp [written]
      · rw [exitCalls_append, exitCalls_append, p4, i4]
        simp [exitCalls]

/-- Every publish of the `group` loop carries `data`, and the loop queues and
writes nothing, whatever the state. -/
theorem CharRead_group_bodies (data : Bytes) (l : List String) (w : World) :
    (∀ q ∈ publishes (CharRead_group data w l).2.1, q.2 = data) ∧
      queued (CharRead_group data w l).2.1 = [] ∧
      written (CharRead_group data w l).2.1 = [] := by
  induction l generalizing w with
  | nil => simp [CharRead_group, publishes, queued, written]
  | cons mark rest ih =>
    obtain ⟨e1, _⟩ := CharRead_ensure_spec w mark
    obtain ⟨p1, p2, p3, _⟩ := publishes_of_reconcile _ e1
    rcases hens : CharRead_ensure w mark with ⟨w1, es1⟩
    rw [hens] at p1 p2 p3
    simp only at p1 p2 p3
    cases hget : mapGet w1.RabbieMqPoll mark with
    | none =>
      simp only [CharRead_group, hens, hget]
      rw [publishes_append, queued_append, written_append, p1, p2, p3]
      simp [publishes, queued, written]
    | some mq =>
      obtain ⟨i1, i2, i3⟩ := ih w1
      rcases hrest : CharRead_group data w1 rest with ⟨w2, es2, c⟩
      rw [hrest] at i1 i2 i3
      simp only at i1 i2 i3
      simp only [CharRead_group, hens, hget, hrest]
      rw [publishes_append, publishes_append, queued_append, queued_append, written_append,
        written_append, p1, p2, p3, i2, i3]
      refine ⟨?_, by simp [queued], by simp [written]⟩
      intro q hq
      simp only [publishes, List.filterMap_cons, List.filterMap_nil, List.nil_append,
        List.singleton_append, List.mem_cons] at hq
      rcases hq with h | h
      · rw [h]
      · exact i1 q h

theorem CharRead_frame_group (J : Json) (w : World) (node : Node) (ID : Int) (message : Bytes)
    (m : Message) (data : Bytes) (hdec : J.UnmarshalMessage message = some m)
    (hty : m.Type_ = "group") (hser : J.Marshal (CharRead_Response m ID) = some data) :
    CharRead_frame J w node ID message
      = CharRead_group data w (mapKeys w.RDB.HGetAllNodes) := by
  simp only [CharRead_frame, hdec, hser, hty, if_true]

theorem CharRead_frame_once (J : Json) (w : World) (node : Node) (ID : Int) (message : Bytes)
    (m : Message) (data : Bytes) (N : String) (mq : RabbitMQ)
    (hdec : J.UnmarshalMessage message = some m)
    (hty : m.Type_ = "once") (hser : J.Marshal (CharRead_Response m ID) = some data)
    (hget : w.RDB.Get (Sprintf_d m.Target) = some N)
    (hmq : mapGet (CharRead_ensure w N).1.RabbieMqPoll N = some mq) :
    CharRead_frame J w node ID message
      = ((CharRead_ensure w N).1,
          (CharRead_ensure w N).2 ++ [Effect.PublishSimple N mq data,
            Effect.WriteMessage node.Conn data], Ctl.next) := by
  have hng : ¬ m.Type_ = "group" := by
    rw [hty]
    decide
  rcases hens : CharRead_ensure w N with ⟨w1, es1⟩
  rw [hens] at hmq
  simp only at hmq
  simp only [CharRead_frame, hdec, hser, hty, hget, hens, hmq]
  simp

theorem CharRead_frame_once_nil (J : Json) (w : World) (node : Node) (ID : Int)
    (message : Bytes) (m : Message) (data : Bytes) (N : String)
    (hdec : J.UnmarshalMessage message = some m)
    (hty : m.Type_ = "once") (hser : J.Marshal (CharRead_Response m ID) = some data)
    (hget : w.RDB.Get (Sprintf_d m.Target) = some N)
    (hmq : mapGet (CharRead_ensure w N).1.RabbieMqPoll N = none) :
    CharRead_frame J w node ID message
      = ((CharRead_ensure w N).1, (CharRead_ensure w N).2 ++ [Effect.NilDeref N], Ctl.panic) := by
  rcases hens : CharRead_ensure w N with ⟨w1, es1⟩
  rw [hens] at hmq
  simp only at hmq
  simp only [CharRead_frame, hdec, hser, hty, hget, hens, hmq]
  simp

/-- C5 (as the code has it): for every well-formed `group` frame and every
router state, `CharRead` publishes the re-serialized envelope once per entry of
the Nodes directory, in iteration order, to the channel of that node, and to no
other channel; the nodes of a Go map are distinct, and then no publish is
repeated, so every node of the directory gets exactly one; nothing is queued
or written to a socket and the reader goes on. -/
theorem CharRead_group_publishes (J : Json) (w : World) (node : Node) (ID : Int)
    (message : Bytes) (m : Message) (data : Bytes)
    (hdec : J.UnmarshalMessage message = some m) (hty : m.Type_ = "group")
    (hser : J.Marshal (CharRead_Response m ID) = some data) :
    publishes (CharRead_frame J w node ID message).2.1
        = (mapKeys w.RDB.HGetAllNodes).map (fun mark => (mark, data)) ∧
      ((mapKeys w.RDB.HGetAllNodes).Nodup →
        (publishes (CharRead_frame J w node ID message).2.1).Nodup) ∧
      (∀ mark, mark ∈ mapKeys w.RDB.HGetAllNodes →
        (mark, data) ∈ publishes (CharRead_frame J w node ID message).2.1) ∧
      (∀ mark body, (mark, body) ∈ publishes (CharRead_frame J w node ID message).2.1 →
        mark ∈ mapKeys w.RDB.HGetAllNodes) ∧
      queued (CharRead_frame J w node ID message).2.1 = [] ∧
      written (CharRead_frame J w node ID message).2.1 = [] ∧
      (CharRead_frame J w node ID message).2.2 = Ctl.next := by
  rw [CharRead_frame_group J w node ID message m data hdec hty hser]
  obtain ⟨g1, g2, g3, _, g5, _, _⟩ :=
    CharRead_group_spec data (mapKeys w.RDB.HGetAllNodes) w (fun x hx => hx)
  refine ⟨g1, ?_, ?_, ?_, g2, g3, g5⟩
  · intro hnd
    rw [g1]
    have hinj : Function.Injective (fun mark : String => (mark, data)) := by
      intro a b h
      exact (Prod.mk.inj h).1
    exact hnd.map hinj
  · intro mark hmark
    rw [g1]
    exact List.mem_map.mpr ⟨mark, hmark, rfl⟩
  · intro mark body hmem
    rw [g1] at hmem
    obtain ⟨x, hx, heq⟩ := List.mem_map.mp hmem
    rw [← (Prod.mk.inj heq).1]
    exact hx

/-- C5, at a concrete frame: user 1 on the node "a" sends the group frame. -/
theorem CharRead_group_publishes_witness :
    demoJson.UnmarshalMessage "g" = some { Data := "hi", Target := 0, Type_ := "group" } ∧
      publishes (CharRead_frame demoJson demoWorld demoNode 1 "g").2.1
        = (mapKeys demoWorld.RDB.HGetAllNodes).map (fun mark =>
            (mark, renderResponse { Data := "hi", Target := 0, Type_ := "group", FormId := 1 })) :=
  ⟨by decide,
    (CharRead_group_publishes demoJson demoWorld demoNode 1 "g"
      { Data := "hi", Target := 0, Type_ := "group" }
      (renderResponse { Data := "hi", Target := 0, Type_ := "group", FormId := 1 })
      (by decide) rfl rfl).1⟩

/-- C5 (the open-channel set is not what is published to): on the node "a",
whose channel map still holds the channel of the vanished node "z", a group
frame is published to "a" and "b" only; "z" is a key of `RabbieMqPoll` before
and after the frame and gets nothing. -/
theorem CharRead_group_skips_open_channel :
    "z" ∈ mapKeys demoWorld.RabbieMqPoll ∧
      "z" ∈ mapKeys (CharRead_frame demoJson demoWorld demoNode 1 "g").1.RabbieMqPoll ∧
      (publishes (CharRead_frame demoJson demoWorld demoNode 1 "g").2.1).map Prod.fst
        = ["a", "b"] := by
  decide

/-- What the code does for a present target (the general fact behind C6): for
every well-formed `once` frame whose target
has a presence record naming the node `N`, when `N` has an open channel or is
in the Nodes directory, `CharRead` publishes the envelope once, to the channel
of `N`, writes the same bytes once straight to the sender's socket, queues
nothing on `Data`, and goes on. -/
theorem CharRead_once_present (J : Json) (w : World) (node : Node) (ID : Int)
    (message : Bytes) (m : Message) (data : Bytes) (N : String)
    (hdec : J.UnmarshalMessage message = some m) (hty : m.Type_ = "once")
    (hser : J.Marshal (CharRead_Response m ID) = some data)
    (hget : w.RDB.Get (Sprintf_d m.Target) = some N)
    (hch : N ∈ mapKeys w.RabbieMqPoll ∨ N ∈ mapKeys w.RDB.HGetAllNodes) :
    publishes (CharRead_frame J w node ID message).2.1 = [(N, data)] ∧
      written (CharRead_frame J w node ID message).2.1 = [(node.Conn, data)] ∧
      queued (CharRead_frame J w node ID message).2.1 = [] ∧
      (CharRead_frame J w node ID message).2.2 = Ctl.next := by
  obtain ⟨e1, _, _, _, e5, _⟩ := CharRead_ensure_spec w N
  obtain ⟨p1, p2, p3, _⟩ := publishes_of_reconcile _ e1
  have hsome := e5 hch
  cases hmq : mapGet (CharRead_ensure w N).1.RabbieMqPoll N with
  | none => simp [hmq] at hsome
  | some mq =>
    rw [CharRead_frame_once J w node ID message m data N mq hdec hty hser hget hmq]
    refine ⟨?_, ?_, ?_, rfl⟩
    · show publishes ((CharRead_ensure w N).2 ++ _) = _
      rw [publishes_append, p1]
      simp [publishes]
    · show written ((CharRead_ensure w N).2 ++ _) = _
      rw [written_append, p3]
      simp [written]
    · show queued ((CharRead_ensure w N).2 ++ _) = _
      rw [queued_append, p2]
      simp [queued]

/-- The present target at a concrete frame: user 1 writes to user 5, who is on
the node "b". -/
theorem CharRead_once_present_witness :
    demoWorld.RDB.Get (Sprintf_d 5) = some "b" ∧
      publishes (CharRead_frame demoJson demoWorld demoNode 1 "o5").2.1
        = [("b", renderResponse { Data := "hi", Target := 5, Type_ := "once", FormId := 1 })] ∧
      written (CharRead_frame demoJson demoWorld demoNode 1 "o5").2.1
        = [(demoNode.Conn,
            renderResponse { Data := "hi", Target := 5, Type_ := "once", FormId := 1 })] ∧
      queued (CharRead_frame demoJson demoWorld demoNode 1 "o5").2.1 = [] ∧
      (CharRead_frame demoJson demoWorld demoNode 1 "o5").2.2 = Ctl.next :=
  ⟨by decide,
    CharRead_once_present demoJson demoWorld demoNode 1 "o5"
      { Data := "hi", Target := 5, Type_ := "once" }
      (renderResponse { Data := "hi", Target := 5, Type_ := "once", FormId := 1 }) "b"
      (by decide) rfl rfl (by decide) (Or.inl (by decide))⟩

/-- C6 (the code at the failing frames: the echo bypasses the outbound queue,
and a stale presence record publishes nothing): for the frame to user 5 nothing is sent on the sender's `Data`, the
echo is a direct socket write; for the frame to user 6, whose presence record
names the vanished node "c", the publish dereferences a missing map entry and
nothing is published. -/
theorem CharRead_once_echo_not_queued :
    queued (CharRead_frame demoJson demoWorld demoNode 1 "o5").2.1 = [] ∧
      written (CharRead_frame demoJson demoWorld demoNode 1 "o5").2.1
        = [(demoNode.Conn,
            renderResponse { Data := "hi", Target := 5, Type_ := "once", FormId := 1 })] ∧
      demoWorld.RDB.Get (Sprintf_d 6) = some "c" ∧
      publishes (CharRead_frame demoJson demoWorld demoNode 1 "o6").2.1 = [] ∧
      (CharRead_frame demoJson demoWorld demoNode 1 "o6").2.2 = Ctl.panic := by
  decide

theorem CharRead_frame_once_absent (J : Json) (w : World) (node : Node) (ID : Int)
    (message : Bytes) (m : Message) (data : Bytes)
    (hdec : J.UnmarshalMessage message = some m)
    (hty : m.Type_ = "once") (hser : J.Marshal (CharRead_Response m ID) = some data)
    (hget : w.RDB.Get (Sprintf_d m.Target) = none) :
    CharRead_frame J w node ID message
      = (w, [Effect.WriteMessage node.Conn ((J.Marshal (CharRead_offline ID)).getD "")],
          Ctl.next) := by
  simp only [CharRead_frame, hdec, hser, hty, hget]
  simp

theorem CharRead_frame_illegal (J : Json) (w : World) (node : Node) (ID : Int)
    (message : Bytes) (m : Message) (data : Bytes)
    (hdec : J.UnmarshalMessage message = some m)
    (hg : m.Type_ ≠ "group") (ho : m.Type_ ≠ "once")
    (hser : J.Marshal (CharRead_Response m ID) = some data) :
    CharRead_frame J w node ID message
      = (w, [Effect.Send node.Data "Illegal import the type"], Ctl.next) := by
  simp only [CharRead_frame, hdec, hser, hg, ho, if_false]

theorem CharRead_frame_malformed (J : Json) (w : World) (node : Node) (ID : Int)
    (message : Bytes) (hdec : J.UnmarshalMessage message = none) :
    CharRead_frame J w node ID message
      = (w, [Effect.Send node.Data "Message resolution failed"], Ctl.next) := by
  simp only [CharRead_frame, hdec]

/-- A frame whose handling ends normally is followed by the handling of the
rest of the input. -/
theorem CharRead_cons_next (J : Json) (w w1 : World) (node : Node) (ID : Int)
    (message : Bytes) (es1 : List Effect) (rest : List ReadResult)
    (h : CharRead_frame J w node ID message = (w1, es1, Ctl.next)) :
    CharRead J w node ID (ReadResult.frame message :: rest)
      = ((CharRead J w1 node ID rest).1, es1 ++ (CharRead J w1 node ID rest).2.1,
          (CharRead J w1 node ID rest).2.2) := by
  simp only [CharRead, h]

/-- What the code does for an absent target (the general fact behind C7): for
every well-formed `once` frame sent by the
connection with ID `s` whose target has no presence record, `CharRead` produces
exactly one response, the JSON of the envelope with Data "当前用户不在线", Target
`s`, Type "once" and FormId -1, written straight to the sender's socket; it
queues nothing on `Data`, publishes nothing, leaves the state as it was, and
goes on with the next frame. -/
theorem CharRead_once_absent (J : Json) (w : World) (node : Node) (ID : Int)
    (message : Bytes) (m : Message) (data : Bytes)
    (hdec : J.UnmarshalMessage message = some m) (hty : m.Type_ = "once")
    (hser : J.Marshal (CharRead_Response m ID) = some data)
    (hget : w.RDB.Get (Sprintf_d m.Target) = none) :
    CharRead_frame J w node ID message
        = (w, [Effect.WriteMessage node.Conn ((J.Marshal (CharRead_offline ID)).getD "")],
            Ctl.next) ∧
      CharRead_offline ID
        = { Data := "当前用户不在线", Target := ID, Type_ := "once", FormId := -1 } ∧
      publishes (CharRead_frame J w node ID message).2.1 = [] ∧
      queued (CharRead_frame J w node ID message).2.1 = [] ∧
      ∀ rest, CharRead J w node ID (ReadResult.frame message :: rest)
        = ((CharRead J w node ID rest).1,
            [Effect.WriteMessage node.Conn ((J.Marshal (CharRead_offline ID)).getD "")]
              ++ (CharRead J w node ID rest).2.1,
            (CharRead J w node ID rest).2.2) := by
  have h := CharRead_frame_once_absent J w node ID message m data hdec hty hser hget
  refine ⟨h, rfl, ?_, ?_, ?_⟩
  · rw [h]
    rfl
  · rw [h]
    rfl
  · intro rest
    exact CharRead_cons_next J w w node ID message _ rest h

/-- The absent target at a concrete frame: user 1 writes to user 99, who is not
connected. -/
theorem CharRead_once_absent_witness :
    demoWorld.RDB.Get (Sprintf_d 99) = none ∧
      CharRead_frame demoJson demoWorld demoNode 1 "o99"
        = (demoWorld,
            [Effect.WriteMessage demoNode.Conn
              ((demoJson.Marshal (CharRead_offline 1)).getD "")], Ctl.next) :=
  ⟨by decide,
    (CharRead_once_absent demoJson demoWorld demoNode 1 "o99"
      { Data := "hi", Target := 99, Type_ := "once" }
      (renderResponse { Data := "hi", Target := 99, Type_ := "once", FormId := 1 })
      (by decide) rfl rfl (by decide)).1⟩

/-- C7 (the code at the failing frame: the notice bypasses the outbound queue): for the frame of user 1 to the absent
user 99 nothing is sent on the sender's `Data`; the response is a direct write
to the sender's socket. -/
theorem CharRead_offline_not_queued :
    queued (CharRead_frame demoJson demoWorld demoNode 1 "o99").2.1 = [] ∧
      written (CharRead_frame demoJson demoWorld demoNode 1 "o99").2.1
        = [(demoNode.Conn, renderResponse (CharRead_offline 1))] := by
  decide

/-- C8: for every frame that is a protocol error, one that fails to
deserialize or one that deserializes (and re-serializes) with a type other than
"group" and "once", `CharRead` sends exactly one payload on the sender's own
`Data`, "Message resolution failed" respectively "Illegal import the type";
it publishes nothing, does not call the exit gate, leaves the state as it was,
and goes on with the next frame. -/
theorem CharRead_protocol_error (J : Json) (w : World) (node : Node) (ID : Int)
    (message : Bytes) (text : Bytes)
    (herr : (J.UnmarshalMessage message = none ∧ text = "Message resolution failed") ∨
      (∃ m data, J.UnmarshalMessage message = some m ∧ m.Type_ ≠ "group" ∧ m.Type_ ≠ "once" ∧
        J.Marshal (CharRead_Response m ID) = some data ∧ text = "Illegal import the type")) :
    CharRead_frame J w node ID message = (w, [Effect.Send node.Data text], Ctl.next) ∧
      queued (CharRead_frame J w node ID message).2.1 = [(node.Data, text)] ∧
      publishes (CharRead_frame J w node ID message).2.1 = [] ∧
      written (CharRead_frame J w node ID message).2.1 = [] ∧
      exitCalls (CharRead_frame J w node ID message).2.1 = [] ∧
      ∀ rest, CharRead J w node ID (ReadResult.frame message :: rest)
        = ((CharRead J w node ID rest).1,
            [Effect.Send node.Data text] ++ (CharRead J w node ID rest).2.1,
            (CharRead J w node ID rest).2.2) := by
  have h : CharRead_frame J w node ID message = (w, [Effect.Send node.Data text], Ctl.next) := by
    rcases herr with ⟨hdec, htext⟩ | ⟨m, data, hdec, hg, ho, hser, htext⟩
    · rw [htext]
      exact CharRead_frame_malformed J w node ID message hdec
    · rw [htext]
      exact CharRead_frame_illegal J w node ID message m data hdec hg ho hser
  refine ⟨h, ?_, ?_, ?_, ?_, ?_⟩
  · rw [h]
    rfl
  · rw [h]
    rfl
  · rw [h]
    rfl
  · rw [h]
    rfl
  · intro rest
    exact CharRead_cons_next J w w node ID message _ rest h

/-- C8, at two concrete frames of user 1: one that does not decode and one of
the unknown type "shout". -/
theorem CharRead_protocol_error_witness :
    CharRead_frame demoJson demoWorld demoNode 1 "junk"
        = (demoWorld, [Effect.Send demoNode.Data "Message resolution failed"], Ctl.next) ∧
      CharRead_frame demoJson demoWorld demoNode 1 "x"
        = (demoWorld, [Effect.Send demoNode.Data "Illegal import the type"], Ctl.next) :=
  ⟨(CharRead_protocol_error demoJson demoWorld demoNode 1 "junk" "Message resolution failed"
      (Or.inl ⟨by decide, rfl⟩)).1,
    (CharRead_protocol_error demoJson demoWorld demoNode 1 "x" "Illegal import the type"
      (Or.inr ⟨{ Data := "hi", Target := 0, Type_ := "shout" },
        renderResponse { Data := "hi", Target := 0, Type_ := "shout", FormId := 1 },
        by decide, by decide, by decide, rfl, rfl⟩)).1⟩

/-- C9: for every well-formed frame received on the connection with ID `s`, the
envelope `CharRead` builds has the Data, Target and Type of the frame and
FormId `s`, and it is the serialization of this envelope that every publish
carries; a socket write carries it too, or the offline notice. -/
theorem CharRead_stamps_sender (J : Json) (w : World) (node : Node) (ID : Int)
    (message : Bytes) (m : Message) (hdec : J.UnmarshalMessage message = some m) :
    (CharRead_Response m ID).Data = m.Data ∧
      (CharRead_Response m ID).Target = m.Target ∧
      (CharRead_Response m ID).Type_ = m.Type_ ∧
      (CharRead_Response m ID).FormId = ID ∧
      (∀ q ∈ publishes (CharRead_frame J w node ID message).2.1,
        J.Marshal (CharRead_Response m ID) = some q.2) ∧
      (∀ q ∈ written (CharRead_frame J w node ID message).2.1,
        J.Marshal (CharRead_Response m ID) = some q.2 ∨
          q.2 = (J.Marshal (CharRead_offline ID)).getD "") := by
  refine ⟨rfl, rfl, rfl, rfl, ?_⟩
  cases hser : J.Marshal (CharRead_Response m ID) with
  | none =>
    have h : CharRead_frame J w node ID message
        = (w, [Effect.Send node.Data "Message push failed"], Ctl.next) := by
      simp only [CharRead_frame, hdec, hser]
    rw [h]
    simp [publishes, written]
  | some data =>
    by_cases hg : m.Type_ = "group"
    · rw [CharRead_frame_group J w node ID message m data hdec hg hser]
      obtain ⟨b1, _, b3⟩ := CharRead_group_bodies data (mapKeys w.RDB.HGetAllNodes) w
      refine ⟨?_, ?_⟩
      · intro q hq
        rw [b1 q hq]
      · intro q hq
        rw [b3] at hq
        cases hq
    · by_cases ho : m.Type_ = "once"
      · cases hget : w.RDB.Get (Sprintf_d m.Target) with
        | none =>
          rw [CharRead_frame_once_absent J w node ID message m data hdec ho hser hget]
          simp [publishes, written]
        | some N =>
          obtain ⟨e1, _⟩ := CharRead_ensure_spec w N
          obtain ⟨p1, _, p3, _⟩ := publishes_of_reconcile _ e1
          cases hmq : mapGet (CharRead_ensure w N).1.RabbieMqPoll N with
          | none =>
            rw [CharRead_frame_once_nil J w node ID message m data N hdec ho hser hget hmq]
            simp only
            rw [publishes_append, written_append, p1, p3]
            simp [publishes, written]
          | some mq =>
            rw [CharRead_frame_once J w node ID message m data N mq hdec ho hser hget hmq]
            simp only
            rw [publishes_append, written_append, p1, p3]
            simp [publishes, written]
      · rw [CharRead_frame_illegal J w node ID message m data hdec hg ho hser]
        simp [publishes, written]

/-- C9, at a concrete frame: the group frame of user 1 is published with
FormId 1. -/
theorem CharRead_stamps_sender_witness :
    demoJson.UnmarshalMessage "g" = some { Data := "hi", Target := 0, Type_ := "group" } ∧
      publishes (CharRead_frame demoJson demoWorld demoNode 1 "g").2.1 ≠ [] ∧
      (CharRead_Response { Data := "hi", Target := 0, Type_ := "group" } 1).FormId = 1 ∧
      ∀ q ∈ publishes (CharRead_frame demoJson demoWorld demoNode 1 "g").2.1,
        demoJson.Marshal (CharRead_Response { Data := "hi", Target := 0, Type_ := "group" } 1)
          = some q.2 :=
  ⟨by decide, by decide,
    (CharRead_stamps_sender demoJson demoWorld demoNode 1 "g"
      { Data := "hi", Target := 0, Type_ := "group" } (by decide)).2.2.2.1,
    (CharRead_stamps_sender demoJson demoWorld demoNode 1 "g"
      { Data := "hi", Target := 0, Type_ := "group" } (by decide)).2.2.2.2.1⟩

/-! ### The consumer -/

/-- C10: for every delivery that decodes to an envelope of type "group" and
every state of `ConnectionPool`, `RabbitMqSumerRun` sends the delivered body,
unchanged, once per entry of `ConnectionPool` onto that connection's `Data`,
and nothing else; the connections of a Go map are distinct, so each gets the
body exactly once; the worker goes on with the next delivery. -/
theorem RabbitMqSumerRun_group (J : Json) (w : World) (Body : Bytes)
    (hty : (J.UnmarshalResponse Body).Type_ = "group") :
    RabbitMqSumerRun_delivery J w Body
        = (w.ConnectionPool.map (fun e => Effect.Send e.2.Data Body), Ctl.next) ∧
      queued (RabbitMqSumerRun_delivery J w Body).1
        = w.ConnectionPool.map (fun e => (e.2.Data, Body)) ∧
      written (RabbitMqSumerRun_delivery J w Body).1 = [] ∧
      publishes (RabbitMqSumerRun_delivery J w Body).1 = [] ∧
      ∀ rest, RabbitMqSumerRun_loop J w (Body :: rest)
        = (w.ConnectionPool.map (fun e => Effect.Send e.2.Data Body)
              ++ (RabbitMqSumerRun_loop J w rest).1,
            (RabbitMqSumerRun_loop J w rest).2) := by
  have h : RabbitMqSumerRun_delivery J w Body
      = (w.ConnectionPool.map (fun e => Effect.Send e.2.Data Body), Ctl.next) := by
    simp only [RabbitMqSumerRun_delivery, hty, if_true]
  refine ⟨h, ?_, ?_, ?_, ?_⟩
  · rw [h]
    simp only [queued]
    induction w.ConnectionPool with
    | nil => rfl
    | cons e rest ih => simp [List.filterMap_cons, ih]
  · rw [h]
    simp only [written]
    induction w.ConnectionPool with
    | nil => rfl
    | cons e rest ih => simp [List.filterMap_cons, ih]
  · rw [h]
    simp only [publishes]
    induction w.ConnectionPool with
    | nil => rfl
    | cons e rest ih => simp [List.filterMap_cons, ih]
  · intro rest
    simp only [RabbitMqSumerRun_loop, h]

/-- C10, at a concrete delivery: the group envelope reaches the queues 11 and
21 of the users 1 and 2 of the node "a". -/
theorem RabbitMqSumerRun_group_witness :
    (demoJson.UnmarshalResponse "dg").Type_ = "group" ∧
      queued (RabbitMqSumerRun_delivery demoJson demoWorld "dg").1 = [(11, "dg"), (21, "dg")] :=
  ⟨by decide, (RabbitMqSumerRun_group demoJson demoWorld "dg" (by decide)).2.1⟩

/-! ### The consumer, private messages -/

/-- A delivery of type "once" whose target is in `ConnectionPool` is sent on
that connection's `Data` and on no other queue, and the worker goes on. -/
theorem RabbitMqSumerRun_once_present (J : Json) (w : World) (Body : Bytes) (node : Node)
    (hty : (J.UnmarshalResponse Body).Type_ = "once")
    (hget : mapGet w.ConnectionPool (J.UnmarshalResponse Body).Target = some node) :
    RabbitMqSumerRun_delivery J w Body = ([Effect.Send node.Data Body], Ctl.next) ∧
      ∀ rest, RabbitMqSumerRun_loop J w (Body :: rest)
        = ([Effect.Send node.Data Body] ++ (RabbitMqSumerRun_loop J w rest).1,
            (RabbitMqSumerRun_loop J w rest).2) := by
  have hng : ¬ (J.UnmarshalResponse Body).Type_ = "group" := by
    rw [hty]
    decide
  have h : RabbitMqSumerRun_delivery J w Body = ([Effect.Send node.Data Body], Ctl.next) := by
    simp only [RabbitMqSumerRun_delivery, hty, hget]
    simp
  refine ⟨h, ?_⟩
  intro rest
  simp only [RabbitMqSumerRun_loop, h]

/-- A delivery of type "once" whose target is not in `ConnectionPool` is sent on
the nil channel of the zero `Node`: the send never completes, and the worker
does not reach the deliveries that follow. -/
theorem RabbitMqSumerRun_once_absent (J : Json) (w : World) (Body : Bytes)
    (hty : (J.UnmarshalResponse Body).Type_ = "once")
    (hget : mapGet w.ConnectionPool (J.UnmarshalResponse Body).Target = none) :
    RabbitMqSumerRun_delivery J w Body = ([Effect.SendNil Body], Ctl.blocked) ∧
      ∀ rest, RabbitMqSumerRun_loop J w (Body :: rest) = ([Effect.SendNil Body], Ctl.blocked) := by
  have hng : ¬ (J.UnmarshalResponse Body).Type_ = "group" := by
    rw [hty]
    decide
  have h : RabbitMqSumerRun_delivery J w Body = ([Effect.SendNil Body], Ctl.blocked) := by
    simp only [RabbitMqSumerRun_delivery, hty, hget]
    simp
  refine ⟨h, ?_⟩
  intro rest
  simp only [RabbitMqSumerRun_loop, h]

/-- C11 (the code at the failing delivery): on the node "a", where users 1 and 2
are connected, the envelope "d99" for the absent user 99 is not dropped: the
worker executes a send on a nil channel and stays blocked in it, so the
delivery "d2" behind it is never handled, while "d2" alone reaches the queue of
user 2. -/
theorem RabbitMqSumerRun_once_absent_blocks :
    (demoJsonOnce.UnmarshalResponse "d99").Type_ = "once" ∧
      mapGet demoWorld.ConnectionPool (demoJsonOnce.UnmarshalResponse "d99").Target = none ∧
      RabbitMqSumerRun_delivery demoJsonOnce demoWorld "d99"
        = ([Effect.SendNil "d99"], Ctl.blocked) ∧
      RabbitMqSumerRun_loop demoJsonOnce demoWorld ["d99", "d2"]
        = ([Effect.SendNil "d99"], Ctl.blocked) ∧
      RabbitMqSumerRun_loop demoJsonOnce demoWorld ["d2"]
        = ([Effect.Send 21 "d2"], Ctl.next) := by
  decide

/-! ### Refused connections -/

theorem RPop_some (r rdb : Redis) (ID : Int) (h : r.RPop = some (ID, rdb)) :
    rdb.LoginBucket ++ [ID] = r.LoginBucket ∧ rdb.Strings = r.Strings ∧
      rdb.Sets = r.Sets ∧ rdb.Nodes = r.Nodes := by
  unfold Redis.RPop at h
  cases hlast : r.LoginBucket.getLast? with
  | none =>
    rw [hlast] at h
    cases h
  | some v =>
    rw [hlast] at h
    simp only [Option.some.injEq, Prod.mk.injEq] at h
    obtain ⟨hv, hr⟩ := h
    have hne : r.LoginBucket ≠ [] := by
      intro h0
      simp [h0] at hlast
    rw [List.getLast?_eq_getLast _ hne] at hlast
    have hv' : r.LoginBucket.getLast hne = ID := by
      rw [← hv]
      simpa using hlast
    rw [← hr]
    refine ⟨?_, rfl, rfl, rfl⟩
    simp only
    rw [← hv']
    exact List.dropLast_append_getLast hne

/-- C12: a connection attempt that fails before registration, because the
identity pool is empty or because the upgrade fails after an ID was acquired,
is refused: `ChatHome` serves no connection and starts no goroutine, and when
it has returned `ConnectionPool`, the presence records, the membership sets,
the Nodes directory, the channel map and `ActiveConnWG` are what they were, and
LoginBucket holds the same IDs, each as often as before. -/
theorem ChatHome_refused (J : Json) (w : World) (req : Request)
    (hfail : w.RDB.RPop = none ∨ req.Upgrade = none) :
    (ChatHome_enter J w req).serving = none ∧
      started ((ChatHome_enter J w req).trace
        ++ (ChatHome_return (ChatHome_enter J w req)).2) = [] ∧
      (ChatHome_return (ChatHome_enter J w req)).1.ConnectionPool = w.ConnectionPool ∧
      (ChatHome_return (ChatHome_enter J w req)).1.RDB.Strings = w.RDB.Strings ∧
      (ChatHome_return (ChatHome_enter J w req)).1.RDB.Sets = w.RDB.Sets ∧
      (ChatHome_return (ChatHome_enter J w req)).1.RDB.Nodes = w.RDB.Nodes ∧
      (ChatHome_return (ChatHome_enter J w req)).1.RabbieMqPoll = w.RabbieMqPoll ∧
      (ChatHome_return (ChatHome_enter J w req)).1.ActiveConnWG = w.ActiveConnWG ∧
      (ChatHome_return (ChatHome_enter J w req)).1.RDB.LoginBucket.Perm w.RDB.LoginBucket := by
  cases hpop : w.RDB.RPop with
  | none =>
    simp [ChatHome_return, ChatHome_enter, hpop, runDefers, runDefer, started]
  | some p =>
    obtain ⟨ID, rdb⟩ := p
    have hup : req.Upgrade = none := by
      rcases hfail with h | h
      · rw [hpop] at h
        cases h
      · exact h
    obtain ⟨r1, r2, r3, r4⟩ := RPop_some w.RDB rdb ID hpop
    have hE : ChatHome_enter J w req
        = { w := { w with ActiveConnWG := w.ActiveConnWG + 1, RDB := rdb }
            trace := [Effect.ActiveConnAdd, Effect.RPop (some ID), Effect.Upgrade none]
            defers := [Defer.LPush ID, Defer.ActiveConnDone]
            serving := none } := by
      simp only [ChatHome_enter, hpop, hup]
    rw [hE]
    refine ⟨rfl, rfl, rfl, r2, r3, r4, rfl, Nat.add_sub_cancel _ _, ?_⟩
    show (ID :: rdb.LoginBucket).Perm w.RDB.LoginBucket
    rw [← r1]
    exact (List.perm_append_singleton ID rdb.LoginBucket).symm

/-- C12, at two concrete attempts on the node "a": one whose upgrade fails
after ID 7 was popped, and one that finds the pool empty. -/
theorem ChatHome_refused_witness :
    ((ChatHome_return (ChatHome_enter demoJson demoWorld { Upgrade := none })).1.ConnectionPool
        = demoWorld.ConnectionPool ∧
      (ChatHome_return (ChatHome_enter demoJson demoWorld
        { Upgrade := none })).1.RDB.LoginBucket.Perm demoWorld.RDB.LoginBucket) ∧
    demoWorldExhausted.RDB.RPop = none ∧
    (ChatHome_enter demoJson demoWorldExhausted { Upgrade := some 40 }).serving = none :=
  ⟨⟨(ChatHome_refused demoJson demoWorld { Upgrade := none } (Or.inr rfl)).2.2.1,
      (ChatHome_refused demoJson demoWorld { Upgrade := none } (Or.inr rfl)).2.2.2.2.2.2.2.2⟩,
    by decide,
    (ChatHome_refused demoJson demoWorldExhausted { Upgrade := some 40 }
      (Or.inl (by decide))).1⟩

/-! ### Shutdown -/

theorem CloseRabbieMqConn_step_of_none (w : World) (es : List Effect) (e : String × RabbitMQ)
    (h : mapGet w.RabbieMqPoll e.1 = none) :
    CloseRabbieMqConn_step (w, es) e = (w, es) := by
  simp only [CloseRabbieMqConn_step, h]

theorem CloseRabbieMqConn_step_of_some (w : World) (es : List Effect) (e : String × RabbitMQ)
    (mq : RabbitMQ) (h : mapGet w.RabbieMqPoll e.1 = some mq) :
    CloseRabbieMqConn_step (w, es) e
      = ({ w with RabbieMqPoll := mapDelete w.RabbieMqPoll e.1 }, es ++ [Effect.Destory e.2]) := by
  simp only [CloseRabbieMqConn_step, h]

theorem CloseRabbieMqConn_step_get (w : World) (es : List Effect) (e : String × RabbitMQ)
    (x : String) :
    mapGet (CloseRabbieMqConn_step (w, es) e).1.RabbieMqPoll x
      = if x = e.1 then none else mapGet w.RabbieMqPoll x := by
  cases h : mapGet w.RabbieMqPoll e.1 with
  | none =>
    rw [CloseRabbieMqConn_step_of_none w es e h]
    by_cases hx : x = e.1
    · rw [if_pos hx, hx]
      exact h
    · rw [if_neg hx]
  | some mq =>
    rw [CloseRabbieMqConn_step_of_some w es e mq h]
    by_cases hx : x = e.1
    · rw [if_pos hx, hx]
      show mapGet (mapDelete w.RabbieMqPoll e.1) e.1 = none
      rw [mapGet_eq_none_iff, mapKeys_mapDelete]
      simp
    · rw [if_neg hx]
      exact mapGet_mapDelete_ne _ _ _ hx

theorem CloseRabbieMqConn_step_effects (w : World) (es : List Effect) (e : String × RabbitMQ)
    (x : Effect) :
    x ∈ (CloseRabbieMqConn_step (w, es) e).2
      ↔ x ∈ es ∨ ((mapGet w.RabbieMqPoll e.1).isSome = true ∧ x = Effect.Destory e.2) := by
  cases h : mapGet w.RabbieMqPoll e.1 with
  | none =>
    rw [CloseRabbieMqConn_step_of_none w es e h]
    simp
  | some mq =>
    rw [CloseRabbieMqConn_step_of_some w es e mq h]
    simp

theorem CloseRabbieMqConn_step_frame (w : World) (es : List Effect) (e : String × RabbitMQ) :
    (CloseRabbieMqConn_step (w, es) e).1.RDB = w.RDB ∧
      (CloseRabbieMqConn_step (w, es) e).1.ConnectionPool = w.ConnectionPool ∧
      (CloseRabbieMqConn_step (w, es) e).1.OnlyMark = w.OnlyMark := by
  cases h : mapGet w.RabbieMqPoll e.1 with
  | none =>
    rw [CloseRabbieMqConn_step_of_none w es e h]
    exact ⟨rfl, rfl, rfl⟩
  | some mq =>
    rw [CloseRabbieMqConn_step_of_some w es e mq h]
    exact ⟨rfl, rfl, rfl⟩

/-- What the loop of `CloseRabbieMqConn` leaves, over any list of entries. -/
theorem CloseRabbieMqConn_fold (l : List (String × RabbitMQ)) (w : World) (es : List Effect) :
    (∀ x, mapGet (l.foldl CloseRabbieMqConn_step (w, es)).1.RabbieMqPoll x
        = if x ∈ mapKeys l then none else mapGet w.RabbieMqPoll x) ∧
    (∀ e, e ∈ es → e ∈ (l.foldl CloseRabbieMqConn_step (w, es)).2) ∧
    (∀ x mq, mapGet l x = some mq → (mapGet w.RabbieMqPoll x).isSome = true →
        Effect.Destory mq ∈ (l.foldl CloseRabbieMqConn_step (w, es)).2) ∧
    (∀ e, e ∈ (l.foldl CloseRabbieMqConn_step (w, es)).2 →
        e ∈ es ∨ ∃ x mq, e = Effect.Destory mq ∧ (x, mq) ∈ l) ∧
    (l.foldl CloseRabbieMqConn_step (w, es)).1.RDB = w.RDB ∧
    (l.foldl CloseRabbieMqConn_step (w, es)).1.ConnectionPool = w.ConnectionPool ∧
    (l.foldl CloseRabbieMqConn_step (w, es)).1.OnlyMark = w.OnlyMark := by
  induction l generalizing w es with
  | nil =>
    simp only [List.foldl_nil, mapKeys, List.map_nil, List.not_mem_nil, if_false, implies_true,
      true_and, and_true, imp_self]
    refine ⟨?_, ?_⟩
    · intro x mq h
      simp [mapGet] at h
    · intro e he
      exact Or.inl he
  | cons a rest ih =>
    rw [List.foldl_cons]
    have hget := CloseRabbieMqConn_step_get w es a
    have heff := CloseRabbieMqConn_step_effects w es a
    have hfr := CloseRabbieMqConn_step_frame w es a
    rcases hstep : CloseRabbieMqConn_step (w, es) a with ⟨w1, es1⟩
    rw [hstep] at hget heff hfr
    simp only at hget heff hfr
    obtain ⟨i1, i2, i3, i4, i5, i6, i7⟩ := ih w1 es1
    obtain ⟨k, v⟩ := a
    simp only at hget heff
    refine ⟨?_, ?_, ?_, ?_, i5.trans hfr.1, i6.trans hfr.2.1, i7.trans hfr.2.2⟩
    · intro x
      rw [i1, hget]
      by_cases hxk : x = k
      · subst hxk
        simp [mapKeys]
      · by_cases hxr : x ∈ mapKeys rest
        · have : x ∈ mapKeys ((k, v) :: rest) := by
            simp only [mapKeys, List.map_cons, List.mem_cons]
            exact Or.inr hxr
          rw [if_pos hxr, if_pos this]
        · have : x ∉ mapKeys ((k, v) :: rest) := by
            simp only [mapKeys, List.map_cons, List.mem_cons, not_or]
            exact ⟨hxk, hxr⟩
          rw [if_neg hxr, if_neg hxk, if_neg this]
    · intro e he
      exact i2 e ((heff e).mpr (Or.inl he))
    · intro x mq hl hsome
      by_cases hxk : k = x
      · subst hxk
        have hv : v = mq := by
          simpa [mapGet] using hl
        rw [← hv]
        exact i2 _ ((heff _).mpr (Or.inr ⟨hsome, rfl⟩))
      · have hl' : mapGet rest x = some mq := by
          simpa [mapGet, hxk] using hl
        refine i3 x mq hl' ?_
        have hxk' : ¬ x = k := fun e => hxk e.symm
        rw [hget, if_neg hxk']
        exact hsome
    · intro e he
      rcases i4 e he with h | ⟨x, mq, hx, hmem⟩
      · rcases (heff e).mp h with h1 | ⟨_, h2⟩
        · exact Or.inl h1
        · exact Or.inr ⟨k, v, h2, List.mem_cons_self _ _⟩
      · exact Or.inr ⟨x, mq, hx, List.mem_cons_of_mem _ hmem⟩

theorem map_nil_of_get_none {κ ν : Type} [DecidableEq κ] (m : List (κ × ν))
    (h : ∀ x, mapGet m x = none) : m = [] := by
  cases m with
  | nil => rfl
  | cons e rest =>
    obtain ⟨k, v⟩ := e
    have := h k
    simp [mapGet] at this

theorem Exit_eq (w : World) :
    Exit w
      = ((RedisDelete (CloseRabbieMqConn (CloseUserConn w).1).1).1,
          (CloseUserConn w).2 ++ (CloseRabbieMqConn (CloseUserConn w).1).2
            ++ (RedisDelete (CloseRabbieMqConn (CloseUserConn w).1).1).2) := by
  rfl

/-- What `Exit` does for every state: every connection of `ConnectionPool` gets
one call of its once-guarded exit send, every channel of `RabbieMqPoll` is
destroyed and the map is left empty, the node's membership set and its field in
the Nodes directory are removed; `ConnectionPool` itself is left as it was. -/
theorem Exit_spec (w : World) :
    exitCalls (Exit w).2 = w.ConnectionPool.map (fun e => (e.2.ExitFlag, e.2.Exit)) ∧
      (Exit w).1.RabbieMqPoll = [] ∧
      (∀ s mq, mapGet w.RabbieMqPoll s = some mq → Effect.Destory mq ∈ (Exit w).2) ∧
      mapGet (Exit w).1.RDB.Sets w.OnlyMark = none ∧
      w.OnlyMark ∉ mapKeys (Exit w).1.RDB.Nodes ∧
      (Exit w).1.ConnectionPool = w.ConnectionPool := by
  obtain ⟨c1, _, c3, c4, c5, c6, c7⟩ := CloseRabbieMqConn_fold w.RabbieMqPoll w []
  have hpoll : (CloseRabbieMqConn w).1.RabbieMqPoll = [] := by
    apply map_nil_of_get_none
    intro x
    show mapGet (w.RabbieMqPoll.foldl CloseRabbieMqConn_step (w, [])).1.RabbieMqPoll x = none
    rw [c1 x]
    by_cases hx : x ∈ mapKeys w.RabbieMqPoll
    · rw [if_pos hx]
    · rw [if_neg hx]
      exact (mapGet_eq_none_iff _ _).mpr hx
  have hrec : ∀ e ∈ (CloseRabbieMqConn w).2, isReconcile e = true := by
    intro e he
    rcases c4 e he with h | ⟨x, mq, hx, _⟩
    · cases h
    · rw [hx]
      rfl
  obtain ⟨_, _, _, p4⟩ := publishes_of_reconcile _ hrec
  rw [Exit_eq]
  refine ⟨?_, hpoll, ?_, ?_, ?_, c6⟩
  · rw [exitCalls_append, exitCalls_append]
    show exitCalls (CloseUserConn w).2 ++ exitCalls (CloseRabbieMqConn w).2 ++ _ = _
    rw [p4]
    simp only [CloseUserConn, RedisDelete, exitCalls, List.filterMap_cons, List.filterMap_nil,
      List.append_nil]
    induction w.ConnectionPool with
    | nil => rfl
    | cons e rest ih => simp [List.filterMap_cons, ih]
  · intro s mq hsome
    have hd : Effect.Destory mq ∈ (CloseRabbieMqConn w).2 := by
      refine c3 s mq hsome ?_
      rw [hsome]
      rfl
    simp only [List.mem_append]
    exact Or.inl (Or.inr hd)
  · show mapGet (mapDelete (CloseRabbieMqConn w).1.RDB.Sets (CloseRabbieMqConn w).1.OnlyMark)
      w.OnlyMark = none
    have h7 : (CloseRabbieMqConn w).1.OnlyMark = w.OnlyMark := c7
    rw [h7, mapGet_eq_none_iff, mapKeys_mapDelete]
    simp
  · show w.OnlyMark ∉ mapKeys (mapDelete (CloseRabbieMqConn w).1.RDB.Nodes
      (CloseRabbieMqConn w).1.OnlyMark)
    have h7 : (CloseRabbieMqConn w).1.OnlyMark = w.OnlyMark := c7
    rw [h7, mapKeys_mapDelete]
    simp

/-- C13 (the code at the failing state): on the node "a" with users 1 and 2
connected, `Exit` sends both their exit signals, destroys the three channels
and empties `RabbieMqPoll`, removes the membership set "a" and the field "a" of
the Nodes directory, and returns with both connections still in
`ConnectionPool`. -/
theorem Exit_leaves_ConnectionPool :
    exitCalls (Exit demoWorld).2 = [(13, 12), (23, 22)] ∧
      (Exit demoWorld).1.RabbieMqPoll = [] ∧
      (Exit demoWorld).1.RDB.Sets = [("b", ["5"])] ∧
      (Exit demoWorld).1.RDB.Nodes = [("b", "ok")] ∧
      (Exit demoWorld).1.ConnectionPool = demoWorld.ConnectionPool ∧
      (Exit demoWorld).1.ConnectionPool ≠ [] := by
  decide

/-! ### Channel look-ups -/

theorem mapGet_mem {κ ν : Type} [DecidableEq κ] (m : List (κ × ν)) (k : κ) (v : ν)
    (h : mapGet m k = some v) : (k, v) ∈ m := by
  induction m with
  | nil => simp [mapGet] at h
  | cons e rest ih =>
    obtain ⟨k', v'⟩ := e
    by_cases hk : k' = k
    · subst hk
      have hv : v' = v := by
        simpa [mapGet] using h
      rw [hv]
      exact List.mem_cons_self _ _
    · have h' : mapGet rest k = some v := by
        simpa [mapGet, hk] using h
      exact List.mem_cons_of_mem _ (ih h')

theorem nilDerefs_append (a b : List Effect) : nilDerefs (a ++ b) = nilDerefs a ++ nilDerefs b := by
  simp [nilDerefs, List.filterMap_append]

theorem nilDerefs_of_reconcile (es : List Effect) (h : ∀ e ∈ es, isReconcile e = true) :
    nilDerefs es = [] := by
  induction es with
  | nil => rfl
  | cons e rest ih =>
    have he := h e (List.mem_cons_self _ _)
    have ih' := ih (fun x hx => h x (List.mem_cons_of_mem _ hx))
    unfold nilDerefs at *
    cases e <;> simp_all [isReconcile]

/-- The `group` loop over marks of the Nodes directory meets no missing entry. -/
theorem CharRead_group_nilDerefs (data : Bytes) (l : List String) (w : World)
    (hl : ∀ x ∈ l, x ∈ mapKeys w.RDB.HGetAllNodes) :
    nilDerefs (CharRead_group data w l).2.1 = [] := by
  induction l generalizing w with
  | nil => simp [CharRead_group, nilDerefs]
  | cons mark rest ih =>
    obtain ⟨e1, e2, _, _, e5, _⟩ := CharRead_ensure_spec w mark
    have hsome := e5 (Or.inr (hl mark (List.mem_cons_self _ _)))
    have p1 := nilDerefs_of_reconcile _ e1
    rcases hens : CharRead_ensure w mark with ⟨w1, es1⟩
    rw [hens] at e2 hsome p1
    simp only at e2 hsome p1
    cases hget : mapGet w1.RabbieMqPoll mark with
    | none => simp [hget] at hsome
    | some mq =>
      have hl1 : ∀ x ∈ rest, x ∈ mapKeys w1.RDB.HGetAllNodes := by
        intro x hx
        rw [e2]
        exact hl x (List.mem_cons_of_mem _ hx)
      have i1 := ih w1 hl1
      rcases hrest : CharRead_group data w1 rest with ⟨w2, es2, c⟩
      rw [hrest] at i1
      simp only at i1
      simp only [CharRead_group, hens, hget, hrest]
      rw [nilDerefs_append, nilDerefs_append, p1, i1]
      simp [nilDerefs]

/-- C14: when every presence record names a node of the Nodes directory, and
the directory is the same at every read while the frame is handled, every
look-up `RabbieMqPoll[node]` that `CharRead` makes right before
`PublishSimple`, for each node of a `group` frame and for the owner of a `once`
frame, finds a channel: the frame is handled without a call on a missing
entry, the reader goes on, and the store is left as it was. -/
theorem CharRead_lookup_finds_channel (J : Json) (w : World) (node : Node) (ID : Int)
    (message : Bytes) (hpres : presenceInNodes w) :
    nilDerefs (CharRead_frame J w node ID message).2.1 = [] ∧
      (CharRead_frame J w node ID message).2.2 = Ctl.next ∧
      (CharRead_frame J w node ID message).1.RDB = w.RDB := by
  cases hdec : J.UnmarshalMessage message with
  | none =>
    rw [CharRead_frame_malformed J w node ID message hdec]
    exact ⟨rfl, rfl, rfl⟩
  | some m =>
    cases hser : J.Marshal (CharRead_Response m ID) with
    | none =>
      have h : CharRead_frame J w node ID message
          = (w, [Effect.Send node.Data "Message push failed"], Ctl.next) := by
        simp only [CharRead_frame, hdec, hser]
      rw [h]
      exact ⟨rfl, rfl, rfl⟩
    | some data =>
      by_cases hg : m.Type_ = "group"
      · rw [CharRead_frame_group J w node ID message m data hdec hg hser]
        obtain ⟨_, _, _, _, g5, g6, _⟩ :=
          CharRead_group_spec data (mapKeys w.RDB.HGetAllNodes) w (fun x hx => hx)
        exact ⟨CharRead_group_nilDerefs data _ w (fun x hx => hx), g5, g6⟩
      · by_cases ho : m.Type_ = "once"
        · cases hget : w.RDB.Get (Sprintf_d m.Target) with
          | none =>
            rw [CharRead_frame_once_absent J w node ID message m data hdec ho hser hget]
            exact ⟨rfl, rfl, rfl⟩
          | some N =>
            have hN : N ∈ mapKeys w.RDB.HGetAllNodes :=
              hpres _ (mapGet_mem _ _ _ hget)
            obtain ⟨e1, e2, _, _, e5, _⟩ := CharRead_ensure_spec w N
            have hsome := e5 (Or.inr hN)
            cases hmq : mapGet (CharRead_ensure w N).1.RabbieMqPoll N with
            | none => simp [hmq] at hsome
            | some mq =>
              rw [CharRead_frame_once J w node ID message m data N mq hdec ho hser hget hmq]
              refine ⟨?_, rfl, e2⟩
              show nilDerefs ((CharRead_ensure w N).2 ++ _) = []
              rw [nilDerefs_append, nilDerefs_of_reconcile _ e1]
              rfl
        · rw [CharRead_frame_illegal J w node ID message m data hdec hg ho hser]
          exact ⟨rfl, rfl, rfl⟩

/-- C14, at two concrete frames of user 1 on the node "a" without the stale
record: the group frame and the frame to user 5. -/
theorem CharRead_lookup_finds_channel_witness :
    presenceInNodes demoWorldClean ∧
      nilDerefs (CharRead_frame demoJson demoWorldClean demoNode 1 "g").2.1 = [] ∧
      publishes (CharRead_frame demoJson demoWorldClean demoNode 1 "g").2.1 ≠ [] ∧
      nilDerefs (CharRead_frame demoJson demoWorldClean demoNode 1 "o5").2.1 = [] ∧
      publishes (CharRead_frame demoJson demoWorldClean demoNode 1 "o5").2.1 ≠ [] :=
  ⟨by decide,
    (CharRead_lookup_finds_channel demoJson demoWorldClean demoNode 1 "g" (by decide)).1,
    by decide,
    (CharRead_lookup_finds_channel demoJson demoWorldClean demoNode 1 "o5" (by decide)).1,
    by decide⟩

end MyWebsocket


